import Mathlib

/-!
# A shallow embedding of `SocialNetwork.py`

This file embeds the core data model and operations of the repository's one
source file, `src/SocialNetwork.py` (the `SocialNetwork` class), and settles
the frozen claims about it.

Modelling conventions:
* Python floats are modelled as `ℚ` (all the weight / mask / attribute
  arithmetic in the claims under study involves only exact values such as
  `1.0`, `0.0`, `-1.0` and quotients of those, so the rational idealisation is
  faithful; a tolerance claim such as "= 1 within 1e-5" is settled by proving
  exact equality).
* The numpy matrices `weights`, `normalized_weights`, `masks` are modelled as
  total functions `ℕ → ℕ → ℚ` (resp. `ℕ → ℕ → ℕ → ℚ`); a numpy index
  assignment with an index `≥ n` raises `IndexError`, so every operation that
  performs such an assignment is embedded as an `Except String SN` value,
  with `Except.error` standing for an uncaught Python exception.
* The networkx graph is modelled by the adjacency function `adj`; for an
  undirected graph (`nx.Graph`) `add_edge`/`remove_edge` act on both ordered
  pairs, for a directed graph (`nx.DiGraph`) on one.
* The single shared pseudo-random stream is made explicit: an operation that
  consumes a draw takes it (or a stream of them) as an argument.
-/

/-- The simulation state: the `_properties` dictionary plus the underlying
networkx graph of the `SocialNetwork` class.  `dimensions` is the opinion
dimensionality `k`; `attribute_space i k` is node `i`'s `k`-th opinion
coordinate; `masks a b k` is `M[a][b][k]`, what `a` perceives of `b`;
`weights v u` is the raw influence `W[v][u]` of `v` on `u`. -/
structure SN where
  n : ℕ
  dimensions : ℕ
  directed : Bool
  symmetric : Bool
  topology : String
  visibility : String
  weight : ℚ
  unfriend : ℚ
  update : ℚ
  adj : ℕ → ℕ → Bool
  weights : ℕ → ℕ → ℚ
  normalized : ℕ → ℕ → ℚ
  masks : ℕ → ℕ → ℕ → ℚ
  attribute_space : ℕ → ℕ → ℚ
  types : ℕ → String
  resistance : ℕ → ℚ

/-- Pointwise update of a matrix entry (a numpy `m[i][j] = x` for in-range
indices; the bound check is made at each call site, as numpy raises there). -/
def fupd2 (f : ℕ → ℕ → ℚ) (i j : ℕ) (x : ℚ) : ℕ → ℕ → ℚ :=
  fun a b => if a = i ∧ b = j then x else f a b

/-- `nx.Graph.add_edge` / `nx.DiGraph.add_edge` on the adjacency function:
undirected graphs store both ordered pairs. -/
def addEdgeAdj (adj : ℕ → ℕ → Bool) (directed : Bool) (u v : ℕ) : ℕ → ℕ → Bool :=
  if directed then fun a b => if a = u ∧ b = v then true else adj a b
  else fun a b => if (a = u ∧ b = v) ∨ (a = v ∧ b = u) then true else adj a b

/-- `remove_edge u v`: `none` models the `NetworkXError` raised when the edge
is absent (callers of `disconnect` catch it); on success an undirected graph
drops both ordered pairs. -/
def removeEdgeAdj (s : SN) (u v : ℕ) : Option (ℕ → ℕ → Bool) :=
  if s.adj u v = true then
    some (if s.directed then fun a b => if a = u ∧ b = v then false else s.adj a b
          else fun a b => if (a = u ∧ b = v) ∨ (a = v ∧ b = u) then false else s.adj a b)
  else none

/-- `get_neighbors u` (source line 487): the nodes that influence `u` — the
predecessors of `u` when directed, the adjacent nodes when undirected. -/
def get_neighbors (s : SN) (u : ℕ) : List ℕ :=
  if s.directed then (List.range s.n).filter (fun v => s.adj v u)
  else (List.range s.n).filter (fun v => s.adj u v)

/-- `self._properties['weights'].sum(axis=0)[u]` — the `total` incoming raw
weight of column `u` computed in `update_weight_column` (source line 502). -/
def colTotal (s : SN) (u : ℕ) : ℚ :=
  ∑ x in Finset.range s.n, s.weights x u

/-- `update_weight_column u` (source lines 494-507): zero column `u` of the
normalized matrix, then set each neighbor's proportional contribution and
finally `N[u][u] = 1/total` (the last write wins on a self-loop, exactly as in
the source).  `ℚ` division by zero yields 0 where numpy would yield `inf`;
no claim below depends on the value at `total = 0`, only on whether
`total = 0` can happen. -/
def update_weight_column (s : SN) (u : ℕ) : SN :=
  let total := colTotal s u
  { s with normalized := fun a b =>
      if b = u then
        if a = u then 1 / total
        else if a ∈ get_neighbors s u then s.weights a u / total
        else 0
      else s.normalized a b }

/-- The column sum `Σ_v N[v][u]` of the normalized weight matrix, the subject
of the normalization invariant. -/
def colSumN (s : SN) (u : ℕ) : ℚ :=
  ∑ v in Finset.range s.n, s.normalized v u

/-- One step of the inner loop of `initialize_edge_weights` (source lines
349-357): `if weights[v][u] > 0: continue`, otherwise assign the configured
fixed weight to `W[v][u]` and mirror it to `W[u][v]` when undirected.  (The
`weight == 'random'` mode draws from the stream instead of using the constant;
the claims under study all fix a constant weight.) -/
def iew_nbr_step (directed : Bool) (w : ℚ) (u : ℕ) (W : ℕ → ℕ → ℚ) (v : ℕ) :
    ℕ → ℕ → ℚ :=
  if W v u > 0 then W
  else
    let W1 := fupd2 W v u w
    if directed = false then fupd2 W1 u v (W1 v u) else W1

/-- One iteration of the outer loop of `initialize_edge_weights` (lines
347-363): run the neighbor loop for `u`, set the self-weight `W[u][u] = 1`,
and populate normalized column `u`. -/
def iew_step (t : SN) (u : ℕ) : SN :=
  let W2 := (get_neighbors t u).foldl (iew_nbr_step t.directed t.weight u) t.weights
  update_weight_column { t with weights := fupd2 W2 u u 1 } u

/-- `initialize_edge_weights` (source lines 338-367): reset both matrices to
zero, then run `iew_step` for each node in order.  (The final corruption
check of lines 365-367 only logs.) -/
def initialize_edge_weights (s : SN) : SN :=
  (List.range s.n).foldl iew_step
    { s with weights := fun _ _ => 0, normalized := fun _ _ => 0 }

/-- `initialize_masks` (source lines 383-404): masks are zeroed; each node's
self-row is set to its true opinion, then each neighbor relationship is set
according to the visibility mode — `'visible'` copies the true vector,
`'random'` keeps or zeroes each coordinate by a coin flip (the flips are the
explicit `coins` argument), any other mode leaves the neighbor rows at zero.
Entry `M[a][b]` is written while processing subject `b` (self first, then the
neighbor loop, so a visibility write to a self-loop neighbor wins). -/
def initialize_masks (s : SN) (coins : ℕ → ℕ → ℕ → Bool) : SN :=
  { s with masks := fun a b k =>
      if a < s.n ∧ b < s.n ∧ k < s.dimensions then
        if a ∈ get_neighbors s b ∧ s.visibility = "visible" then s.attribute_space b k
        else if a ∈ get_neighbors s b ∧ s.visibility = "random" then
          (if coins a b k then s.attribute_space b k else 0)
        else if a = b then s.attribute_space b k
        else 0
      else 0 }

/-- The first `try` block of `disconnect` (source lines 565-571): the edge is
removed and both mask directions are zeroed; an absent edge raises
`NetworkXError`, silently caught, skipping the mask zeroing. -/
def disc_s1 (s : SN) (u v : ℕ) : SN :=
  match removeEdgeAdj s u v with
  | none => s
  | some adj2 =>
    { s with adj := adj2,
             masks := fun a b k =>
               if ((a = v ∧ b = u) ∨ (a = u ∧ b = v)) ∧ k < s.dimensions then 0
               else s.masks a b k }

/-- The symmetric reverse removal of `disconnect` (source lines 573-576),
its own `try` silently absorbing an absent reverse edge. -/
def disc_s2 (s : SN) (u v : ℕ) : SN :=
  if s.symmetric then
    match removeEdgeAdj (disc_s1 s u v) v u with
    | none => disc_s1 s u v
    | some adj3 => { disc_s1 s u v with adj := adj3 }
  else disc_s1 s u v

/-- The weight zeroing of `disconnect` (source lines 578-579). -/
def discS3 (s : SN) (u v : ℕ) : SN :=
  { disc_s2 s u v with weights := fun a b =>
      if (a = u ∧ b = v) ∨ (a = v ∧ b = u) then 0 else (disc_s2 s u v).weights a b }

/-- The body of `disconnect u v` past the probability gate (source lines
565-581), for in-range `u`, `v`: the two `try` blocks, the weight zeroing,
and the recomputation of both normalized columns. -/
def disconnect_body (s : SN) (u v : ℕ) : SN :=
  update_weight_column (update_weight_column (discS3 s u v) u) v

/-- `disconnect u v` (source lines 557-581).  The draw `r` consumed at the
start of the call gates the whole body: `if rnd.random() < unfriend: return`.
With an out-of-range endpoint the body's numpy assignment
`weights[u][v] = 0.` raises an uncaught `IndexError` (the error value
discards the state, so the bound check is hoisted in front of the body). -/
def disconnect (s : SN) (u v : ℕ) (r : ℚ) : Except String SN :=
  if r < s.unfriend then Except.ok s
  else if u < s.n ∧ v < s.n then Except.ok (disconnect_body s u v)
  else Except.error "IndexError"

/-- The body of `connect u v` (source lines 587-622) for distinct in-range
endpoints and a non-`random` visibility mode: add the edge, write the raw
weight `W[u][v]`, set mask `M[v][u]` from `u`'s true opinion when the
visibility mode is `visible` (any other mode leaves masks alone), mirror the
whole operation when `symmetric`, and recompute both normalized columns. -/
def connect_body (s : SN) (u v : ℕ) : SN :=
  let s1 := { s with adj := addEdgeAdj s.adj s.directed u v }
  let s2 := { s1 with weights := fupd2 s1.weights u v s.weight }
  let s3 :=
    if s.visibility = "visible" then
      { s2 with masks := fun a b k =>
          if a = v ∧ b = u ∧ k < s.dimensions then s.attribute_space u k
          else s2.masks a b k }
    else s2
  let s4 :=
    if s.symmetric then
      let t1 := { s3 with adj := addEdgeAdj s3.adj s3.directed v u }
      let t2 := { t1 with weights := fupd2 t1.weights v u s.weight }
      if s.visibility = "visible" then
        { t2 with masks := fun a b k =>
            if a = u ∧ b = v ∧ k < s.dimensions then s.attribute_space v k
            else t2.masks a b k }
      else t2
    else s3
  update_weight_column (update_weight_column s4 u) v

/-- `connect u v` (source lines 583-622): no-op on `u == v`; with an
out-of-range endpoint the numpy write `weights[u][v]` raises an uncaught
`IndexError` (the source mutates the graph first, but the error value
discards the state, so the bound check is hoisted); the `'random'` visibility
branch of the source reads the undefined `self._graph.graph['k']` and
`self._masks`, raising an uncaught error (hoisted likewise). -/
def connect (s : SN) (u v : ℕ) : Except String SN :=
  if u = v then Except.ok s
  else if u < s.n ∧ v < s.n then
    if s.visibility = "random" then Except.error "KeyError"
    else Except.ok (connect_body s u v)
  else Except.error "IndexError"

/-- `reveal u v k` (source lines 624-625): `masks[v][u][k] = 1.` — note the
source writes the constant `1.0`, not `attribute_space[u][k]`. -/
def reveal (s : SN) (u v k : ℕ) : Except String SN :=
  if v < s.n ∧ u < s.n ∧ k < s.dimensions then
    Except.ok { s with masks := fun a b c =>
      if a = v ∧ b = u ∧ c = k then 1 else s.masks a b c }
  else Except.error "IndexError"

/-- `hide u v k` (source lines 627-628): `masks[v][u][k] = 0.`. -/
def hide (s : SN) (u v k : ℕ) : Except String SN :=
  if v < s.n ∧ u < s.n ∧ k < s.dimensions then
    Except.ok { s with masks := fun a b c =>
      if a = v ∧ b = u ∧ c = k then 0 else s.masks a b c }
  else Except.error "IndexError"

/-- `get_local_average u` with the default `weighted=False` (source lines
513-519, the path taken by `update_attributes`): the arithmetic mean
`masks[u].sum(axis=0) / (num_nbrs + 1)` — the sum runs over all `n` rows of
`u`'s mask matrix, the divisor is the neighbor count plus one. -/
def get_local_average (s : SN) (u k : ℕ) : ℚ :=
  (∑ a in Finset.range s.n, s.masks u a k) / ((get_neighbors s u).length + 1)

/-- Family A of archetypes (`['R', 'E', 'SC']` in `update_attributes`). -/
def familyA : List String := ["R", "E", "SC"]

/-- Family B of archetypes (`['DA', 'RWC', 'SR']` in `update_attributes`). -/
def familyB : List String := ["DA", "RWC", "SR"]

/-- Whether the `(i, k)` iteration of `update_attributes` reaches its
`rnd.random() < update` draw (source lines 650-661): family A skips when
`curr_state[k] * local_avg[k] > 0`, family B when `< 0`; otherwise the flip is
considered iff `|local_avg[k]| > resistance[i]`.  A node of neither family
never draws. -/
def update_gate (s : SN) (i k : ℕ) : Bool :=
  let aval := get_local_average s i k
  let c := s.attribute_space i k
  (decide (s.types i ∈ familyA) && !decide (c * aval > 0) && decide (|aval| > s.resistance i))
  || (decide (s.types i ∈ familyB) && !decide (c * aval < 0) && decide (|aval| > s.resistance i))

/-- The `(i, k)` pairs visited by the two nested loops of `update_attributes`,
in loop order (`i` outer over `range n`, `k` inner over `range dimensions`). -/
def pairsList (n K : ℕ) : List (ℕ × ℕ) :=
  (List.range (n * K)).map (fun t => (t / K, t % K))

/-- Collect the `changes` list of `update_attributes`: each gated `(i, k)`
consumes the next draw of the shared stream (index `d` into `draws`) and is
appended when the draw is below the update probability. -/
def collect_changes (s : SN) (draws : ℕ → ℚ) : List (ℕ × ℕ) → ℕ → List (ℕ × ℕ)
  | [], _ => []
  | (i, k) :: rest, d =>
    if update_gate s i k then
      (if draws d < s.update then [(i, k)] else []) ++ collect_changes s draws rest (d + 1)
    else collect_changes s draws rest d

/-- `update_attributes` (source lines 637-664): sweep all `(i, k)` pairs
reading the pre-step state, collect the flips, then apply them all at once —
`attribute_space[node][dim] *= -1` for each collected pair, and nothing else
is assigned. -/
def update_attributes (s : SN) (draws : ℕ → ℚ) : SN :=
  let changes := collect_changes s draws (pairsList s.n s.dimensions) 0
  { s with attribute_space := fun a k =>
      if (a, k) ∈ changes then -(s.attribute_space a k) else s.attribute_space a k }

/-- `get_reward_for_neighbor u v` (source lines 533-549): restrict to the
coordinates where the perceived vector `masks[u][v]` is nonzero; if none is
visible return `0.`; otherwise take the Hamming distance fraction
(`scipy.spatial.distance.hamming` = #mismatches / length) between `u`'s own
opinion and the perceived values on those coordinates, and dispatch on `u`'s
archetype.  A `u` of none of the six archetypes falls through all three `if`s
and returns Python `None`, modelled as `Option.none`. -/
def get_reward_for_neighbor (s : SN) (u v : ℕ) : Option ℚ :=
  let vis := (List.range s.dimensions).filter (fun i => decide (s.masks u v i ≠ 0))
  if vis.isEmpty then some 0
  else
    let m := (vis.filter (fun i => decide (s.attribute_space u i ≠ s.masks u v i))).length
    let dist : ℚ := (m : ℚ) / (vis.length : ℚ)
    if s.types u ∈ (["R", "DA"] : List String) then some (1 - dist)
    else if s.types u ∈ (["E", "RWC"] : List String) then some dist
    else if s.types u ∈ (["SC", "SR"] : List String) then some (1 - |dist - 1/2| * 2)
    else none

/-- The admissible topology keywords (source lines 30-36). -/
def TOPOLOGIES : List String :=
  ["", "complete", "cycle", "random", "scale free", "small world", "star"]

/-- The edge list of `nx.complete_graph n` (every unordered pair, enumerated
in nested-loop order). -/
def completeEdges (n : ℕ) : List (ℕ × ℕ) :=
  (List.range (n * n)).filterMap (fun t =>
    if t / n < t % n then some (t / n, t % n) else none)

/-- The edge list of `nx.cycle_graph n` for `n ≥ 3`: `(i, (i+1) % n)`. -/
def cycleEdges (n : ℕ) : List (ℕ × ℕ) :=
  (List.range n).map (fun i => (i, (i + 1) % n))

/-- `generate_edges` (source lines 275-336) restricted to the deterministic
families needed by the claims: a fresh (edgeless) graph of `n` nodes is built,
then the family's edge list is added edge by edge, mirroring each edge when
`symmetric`.  (The `random` / `scale free` / `small world` / `star` families
delegate the edge list to stochastic networkx generators.) -/
def generate_edges (s : SN) (topology : String) : SN :=
  let base : SN := { s with adj := fun _ _ => false }
  let edges :=
    if topology = "complete" then completeEdges s.n
    else if topology = "cycle" then cycleEdges s.n
    else []
  edges.foldl
    (fun t e =>
      let t1 := { t with adj := addEdgeAdj t.adj t.directed e.1 e.2 }
      if t1.symmetric then { t1 with adj := addEdgeAdj t1.adj t1.directed e.2 e.1 } else t1)
    base

/-- The topology dispatch of `_build` (source lines 119-124):
`if topology in TOPOLOGIES: self.generate_edges(topology)` — but the `else`
branch calls `self.log(...)`, an attribute that does not exist (the logger is
named `_log`), so an unknown topology tag raises an uncaught
`AttributeError` and `self._graph` is never created. -/
def build (s : SN) : Except String SN :=
  if s.topology ∈ TOPOLOGIES then Except.ok (generate_edges s s.topology)
  else Except.error "AttributeError: 'SocialNetwork' object has no attribute 'log'"

/-- The row encoding of `encode_mask` (source lines 68-78): the row's
zero/nonzero pattern read as a binary numeral, `int(temp, 2)`. -/
def encode_mask_row (row : List ℚ) : ℕ :=
  row.foldl (fun acc x => 2 * acc + (if x = 0 then 0 else 1)) 0

/-- `encode_mask masks` (source lines 68-78): for each row with some nonzero
entry, the pair (row index, binary-pattern numeral); all-zero rows are
skipped. -/
def encode_mask (masks : List (List ℚ)) : List (ℕ × ℕ) :=
  (List.range masks.length).filterMap (fun i =>
    let row := masks.getD i []
    if row.any (fun x => decide (x ≠ 0)) then some (i, encode_mask_row row) else none)

/-- Fuel-driven base-2 digits, least significant first (`bin(m)` reversed). -/
def toBitsF : ℕ → ℕ → List ℕ
  | 0, _ => []
  | fuel + 1, m => if m = 0 then [] else m % 2 :: toBitsF fuel (m / 2)
/-- `decode_mask mask` (source lines 81-82): the digits of `str(bin(mask))[2:]`
— most significant first, *without leading zeros* (and `[0]` for zero).  This
is the lossy half of the compact mask encoding: a row whose first coordinates
are hidden decodes to a shorter digit list. -/
def decode_mask (m : ℕ) : List ℕ :=
  if m = 0 then [0] else ((toBitsF m m).reverse)


/-! ## Persistence (`_save` / `_read`)

The XML transport of scalar fields is modelled as structured data; the
per-node payload written by `_save` (source lines 243-250) is a
`NodeRecord`.  What is kept exact is the part the round-trip claim names:
the compact `encode_mask`/`decode_mask` row encoding, the `parents` list,
and the saved weight list `[ weights[i][j] for j in get_neighbors(i) ]`
(row-major — `_read` line 208 writes it back to `weights[parents[i]][idx]`,
i.e. transposed). -/

/-- One `<Node>` element of the saved file. -/
structure NodeRecord where
  idx : ℕ
  parents : List ℕ
  maskEnc : List (ℕ × ℕ)
  wlist : List ℚ
deriving DecidableEq

/-- Node `i`'s mask matrix `masks[i]` as a list of rows (subject-major), the
argument `encode_mask` receives in `_save`. -/
def maskRowMatrix (s : SN) (i : ℕ) : List (List ℚ) :=
  (List.range s.n).map (fun j => (List.range s.dimensions).map (fun k => s.masks i j k))

/-- `_save` (source lines 243-250): one record per node. -/
def exportState (s : SN) : List NodeRecord :=
  (List.range s.n).map (fun i =>
    { idx := i
      parents := get_neighbors s i
      maskEnc := encode_mask (maskRowMatrix s i)
      wlist := (get_neighbors s i).map (fun j => s.weights i j) })

/-- Processing one `<Node>` child in `_read` (source lines 193-219): add the
parent edges, then the `masks` attribute (decode each saved row: a `0` digit
hides the coordinate, a nonzero digit reveals `attribute_space[parent][k]`),
then the `weights` attribute (`weights[parents[i]][idx] = saved[i]` followed
by `update_weight_column idx`). -/
def importNode (t : SN) (r : NodeRecord) : SN :=
  let t1 := r.parents.foldl
    (fun t p => { t with adj := addEdgeAdj t.adj t.directed r.idx p }) t
  let t2 := r.maskEnc.foldl
    (fun t pr =>
      let mask := decode_mask pr.2
      { t with masks := fun a b k =>
          if a = r.idx ∧ b = pr.1 ∧ k < mask.length then
            (if mask.getD k 1 = 0 then 0 else t.attribute_space pr.1 k)
          else t.masks a b k }) t1
  let t3 := (r.parents.zip r.wlist).foldl
    (fun t pw => { t with weights := fupd2 t.weights pw.1 r.idx pw.2 }) t2
  update_weight_column t3 r.idx

/-- `_read` (source lines 133-219) after the root attributes are restored:
build a fresh edgeless graph over the restored node count, run
`initialize_edge_weights` and `initialize_masks` on it, then process the node
records in file order.  `base` carries the restored scalar properties — note
that `_read` parses the booleans with `bool(root.attrib[a])`, and
`bool('False')` is `True` in Python, so a graph saved with
`directed=False, symmetric=False` is restored with both flags `True` (the
underlying graph becomes an `nx.DiGraph`). -/
def importState (base : SN) (recs : List NodeRecord) : SN :=
  let s1 := initialize_edge_weights { base with adj := fun _ _ => false }
  let s2 := initialize_masks s1 (fun _ _ _ => false)
  recs.foldl importNode s2

/-- The round-trip scenario's properties: `n=5`, `dimensions=2`, topology
`cycle`, fixed weight `1.0`, visibility `visible`, undirected; the opinion
matrix `A` stands for whatever `initialize_attribute_space` drew. -/
def cycleProps (A : ℕ → ℕ → ℚ) : SN :=
  { n := 5, dimensions := 2, directed := false, symmetric := false,
    topology := "cycle", visibility := "visible", weight := 1, unfriend := 1,
    update := 1, adj := fun _ _ => false, weights := fun _ _ => 0,
    normalized := fun _ _ => 0, masks := fun _ _ _ => 0, attribute_space := A,
    types := fun _ => "default", resistance := fun _ => 0 }

/-- The state `_build` constructs for the round-trip scenario (the pipeline
stages that touch the claim's fields: edges, edge weights, masks). -/
def constructedCycle (A : ℕ → ℕ → ℚ) : SN :=
  initialize_masks (initialize_edge_weights (generate_edges (cycleProps A) "cycle"))
    (fun _ _ _ => false)

/-- The state `_read` reconstructs from the saved file: the scalar properties
round-trip except `directed`/`symmetric`, which `bool('False')` corrupts to
`true`. -/
def importedCycle (A : ℕ → ℕ → ℚ) : SN :=
  importState { cycleProps A with directed := true, symmetric := true }
    (exportState (constructedCycle A))

/-! ## Concrete states for counterexamples and witnesses -/

/-- Extract the state of a successful operation (counterexample plumbing). -/
def okState (e : Except String SN) (s0 : SN) : SN :=
  match e with
  | Except.ok t => t
  | Except.error _ => s0

/-- A 2-node configuration: complete topology, one dimension, fixed weight 1,
visibility `visible`, node 0's opinion `-1`, node 1's `+1`, both archetype
`R`. -/
def props2 : SN :=
  { n := 2, dimensions := 1, directed := false, symmetric := false,
    topology := "complete", visibility := "visible", weight := 1, unfriend := 1,
    update := 1, adj := fun _ _ => false, weights := fun _ _ => 0,
    normalized := fun _ _ => 0, masks := fun _ _ _ => 0,
    attribute_space := fun a _ => if a = 0 then -1 else 1,
    types := fun _ => "R", resistance := fun _ => 0 }

/-- The fully initialized 2-node complete network. -/
def sTwo : SN :=
  initialize_masks (initialize_edge_weights (generate_edges props2 "complete"))
    (fun _ _ _ => false)

/-- `props2` with unfriend probability `0`, so every draw passes the gate
inside `disconnect`. -/
def props2u : SN := { props2 with unfriend := 0 }

/-- Initialized 2-node complete network with unfriend probability `0`. -/
def sTwoU : SN := initialize_edge_weights (generate_edges props2u "complete")

/-- The state after the reachable call `disconnect 0 0` (same endpoint twice)
on `sTwoU`, with draw `0`. -/
def sTwoUD : SN := okState (disconnect sTwoU 0 0 0) sTwoU

/-- A 1-node configuration with the empty topology. -/
def props1 : SN :=
  { n := 1, dimensions := 1, directed := false, symmetric := false,
    topology := "", visibility := "visible", weight := 1, unfriend := 0,
    update := 1, adj := fun _ _ => false, weights := fun _ _ => 0,
    normalized := fun _ _ => 0, masks := fun _ _ _ => 0,
    attribute_space := fun _ _ => 1, types := fun _ => "DA",
    resistance := fun _ => 0 }

/-- The initialized isolated single node. -/
def sOne : SN := initialize_edge_weights (generate_edges props1 "")

/-- `sOne` after the reachable call `disconnect 0 0` with draw `0`. -/
def sOneD : SN := okState (disconnect sOne 0 0 0) sOne

/-- The single `DA` node with its masks set up, for the update-phase
counterexample: its self-perceived average is `+1`, resistance `0`, update
probability `1`, so the one coordinate flips. -/
def sOneM : SN := initialize_masks sOne (fun _ _ _ => false)

/-- `sOneM` after one update phase (stream of zero draws). -/
def sOneMU : SN := update_attributes sOneM (fun _ => 0)

/-! ## Theory: `update_weight_column` and the normalization invariant -/

theorem uwc_weights (s : SN) (u : ℕ) : (update_weight_column s u).weights = s.weights := rfl

theorem uwc_n (s : SN) (u : ℕ) : (update_weight_column s u).n = s.n := rfl

theorem uwc_adj (s : SN) (u : ℕ) : (update_weight_column s u).adj = s.adj := rfl

theorem uwc_masks (s : SN) (u : ℕ) : (update_weight_column s u).masks = s.masks := rfl

theorem uwc_normalized_other (s : SN) (u a b : ℕ) (h : b ≠ u) :
    (update_weight_column s u).normalized a b = s.normalized a b := by
  simp [update_weight_column, h]

theorem uwc_normalized_col (s : SN) (u a : ℕ) :
    (update_weight_column s u).normalized a u =
      if a = u then 1 / colTotal s u
      else if a ∈ get_neighbors s u then s.weights a u / colTotal s u
      else 0 := by
  simp [update_weight_column]

/-- The normalization core: if column `u` of the raw weights has self-weight
1, vanishes off the neighbor set, and is nonnegative, then recomputing the
column makes it sum to exactly 1. -/
theorem colSumN_update (s : SN) (u : ℕ) (hu : u < s.n)
    (hdiag : s.weights u u = 1)
    (hpat : ∀ v, v < s.n → v ≠ u → v ∉ get_neighbors s u → s.weights v u = 0)
    (hnn : ∀ v, v < s.n → 0 ≤ s.weights v u) :
    colSumN (update_weight_column s u) u = 1 := by
  have hmem : u ∈ Finset.range s.n := Finset.mem_range.mpr hu
  have h1 : (1 : ℚ) ≤ colTotal s u := by
    have h := Finset.single_le_sum (f := fun v => s.weights v u)
      (fun i hi => hnn i (Finset.mem_range.mp hi)) hmem
    simp only at h
    rw [hdiag] at h
    exact h
  have hT : colTotal s u ≠ 0 := by positivity
  have hsum : colSumN (update_weight_column s u) u =
      ∑ v in Finset.range s.n,
        (if v = u then 1 else if v ∈ get_neighbors s u then s.weights v u else 0) /
          colTotal s u := by
    unfold colSumN
    rw [uwc_n]
    refine Finset.sum_congr rfl (fun v _ => ?_)
    rw [uwc_normalized_col]
    split_ifs <;> simp
  rw [hsum, ← Finset.sum_div]
  have hnum : ∑ v in Finset.range s.n,
      (if v = u then 1 else if v ∈ get_neighbors s u then s.weights v u else 0) =
      colTotal s u := by
    unfold colTotal
    rw [← Finset.add_sum_erase _ _ hmem, ← Finset.add_sum_erase _ (fun v => s.weights v u) hmem,
      if_pos rfl, hdiag]
    refine congrArg (1 + ·) (Finset.sum_congr rfl (fun v hv => ?_))
    have hvu : v ≠ u := Finset.ne_of_mem_erase hv
    have hvn : v < s.n := Finset.mem_range.mp (Finset.mem_of_mem_erase hv)
    rw [if_neg hvu]
    by_cases hmemN : v ∈ get_neighbors s u
    · rw [if_pos hmemN]
    · rw [if_neg hmemN, hpat v hvn hvu hmemN]
  rw [hnum, div_self hT]

theorem colSumN_uwc_other (s : SN) (u b : ℕ) (h : b ≠ u) :
    colSumN (update_weight_column s u) b = colSumN s b := by
  unfold colSumN
  rw [uwc_n]
  exact Finset.sum_congr rfl (fun v _ => uwc_normalized_other s u v b h)

/-! ## Theory: the `initialize_edge_weights` loop -/

/-- Pointwise description of one `iew_nbr_step`. -/
theorem iew_nbr_step_eq (dir : Bool) (w : ℚ) (u v : ℕ) (huv : u ≠ v)
    (W : ℕ → ℕ → ℚ) (x y : ℕ) :
    iew_nbr_step dir w u W v x y =
      if ¬(W v u > 0) ∧ dir = false ∧ x = u ∧ y = v then w
      else if ¬(W v u > 0) ∧ x = v ∧ y = u then w
      else W x y := by
  unfold iew_nbr_step
  by_cases hg : W v u > 0
  · simp [hg]
  · simp only [if_neg hg, fupd2]
    by_cases hd : dir = false
    · subst hd
      simp only [if_pos rfl]
      by_cases h1 : x = u ∧ y = v
      · simp [fupd2, h1.1, h1.2, hg, huv.symm, huv]
      · by_cases h2 : x = v ∧ y = u
        · simp [fupd2, h2.1, h2.2, hg, huv, huv.symm, h1]
        · simp [fupd2, h1, h2, hg]
    · have hd' : dir = true := by revert hd; cases dir <;> simp
      subst hd'
      by_cases h2 : x = v ∧ y = u
      · simp [fupd2, h2.1, h2.2, hg]
      · simp [fupd2, h2, hg]

/-- Entrywise description of the inner neighbor loop of
`initialize_edge_weights` over a list `L` avoiding `u` and repetition:
entry `(a, u)` for `a ∈ L` either keeps a previously positive value or
becomes the configured weight, the undirected mirror writes `(u, b)`
likewise, and every other entry is untouched. -/
theorem iew_inner_eq (dir : Bool) (w : ℚ) (u : ℕ) (L : List ℕ) (hu : u ∉ L)
    (hnd : L.Nodup) (W : ℕ → ℕ → ℚ) (a b : ℕ) :
    L.foldl (iew_nbr_step dir w u) W a b =
      if a ∈ L ∧ b = u then (if W a u > 0 then W a u else w)
      else if dir = false ∧ a = u ∧ b ∈ L then (if W b u > 0 then W a b else w)
      else W a b := by
  induction L generalizing W a b with
  | nil => simp
  | cons v L ih =>
    have huv : u ≠ v := fun h => hu (h ▸ List.mem_cons_self v L)
    have huL : u ∉ L := fun h => hu (List.mem_cons_of_mem v h)
    have hvL : v ∉ L := (List.nodup_cons.mp hnd).1
    have hndL : L.Nodup := (List.nodup_cons.mp hnd).2
    have hW := iew_nbr_step_eq dir w u v huv W
    rw [List.foldl_cons, ih huL hndL]
    simp only [List.mem_cons]
    by_cases hbu : b = u
    · by_cases hav : a = v
      · rw [hav, hbu]
        have hC1L : ¬(v ∈ L ∧ u = u) := fun h => hvL h.1
        have hC2L : ¬(dir = false ∧ v = u ∧ u ∈ L) := fun h => huv h.2.1.symm
        have hC1R : (v = v ∨ v ∈ L) ∧ u = u := ⟨Or.inl rfl, rfl⟩
        rw [if_neg hC1L, if_neg hC2L, if_pos hC1R, hW]
        by_cases hg : W v u > 0
        · simp [hg]
        · simp [hg, Ne.symm huv]
      · by_cases haL : a ∈ L
        · rw [hbu]
          have hC1L : a ∈ L ∧ u = u := ⟨haL, rfl⟩
          have hC1R : (a = v ∨ a ∈ L) ∧ u = u := ⟨Or.inr haL, rfl⟩
          rw [if_pos hC1L, if_pos hC1R]
          have e1 : iew_nbr_step dir w u W v a u = W a u := by
            rw [hW, if_neg (fun h => huv h.2.2.2), if_neg (fun h => hav h.2.1)]
          rw [e1]
        · rw [hbu]
          have hC1L : ¬(a ∈ L ∧ u = u) := fun h => haL h.1
          have hC2L : ¬(dir = false ∧ a = u ∧ u ∈ L) := fun h => huL h.2.2
          have hC1R : ¬((a = v ∨ a ∈ L) ∧ u = u) := fun h => h.1.elim hav haL
          have hC2R : ¬(dir = false ∧ a = u ∧ (u = v ∨ u ∈ L)) := fun h => h.2.2.elim huv huL
          rw [if_neg hC1L, if_neg hC2L, if_neg hC1R, if_neg hC2R, hW,
            if_neg (fun h => huv h.2.2.2), if_neg (fun h => hav h.2.1)]
    · have hC1L : ¬(a ∈ L ∧ b = u) := fun h => hbu h.2
      have hC1R : ¬((a = v ∨ a ∈ L) ∧ b = u) := fun h => hbu h.2
      rw [if_neg hC1L, if_neg hC1R]
      by_cases hd : dir = false
      · by_cases hau : a = u
        · by_cases hbv : b = v
          · rw [hau, hbv]
            have hC2L : ¬(dir = false ∧ u = u ∧ v ∈ L) := fun h => hvL h.2.2
            have hC2R : dir = false ∧ u = u ∧ (v = v ∨ v ∈ L) := ⟨hd, rfl, Or.inl rfl⟩
            rw [if_neg hC2L, if_pos hC2R, hW]
            by_cases hg : W v u > 0
            · simp [hg, huv]
            · simp [hg, hd]
          · by_cases hbL : b ∈ L
            · have hC2L : dir = false ∧ a = u ∧ b ∈ L := ⟨hd, hau, hbL⟩
              have hC2R : dir = false ∧ a = u ∧ (b = v ∨ b ∈ L) := ⟨hd, hau, Or.inr hbL⟩
              rw [if_pos hC2L, if_pos hC2R]
              have e1 : iew_nbr_step dir w u W v b u = W b u := by
                rw [hW, if_neg (fun h => hbu h.2.2.1), if_neg (fun h => hbv h.2.1)]
              have e2 : iew_nbr_step dir w u W v a b = W a b := by
                rw [hW, if_neg (fun h => hbv h.2.2.2),
                  if_neg (fun h => huv (hau.symm.trans h.2.1))]
              rw [e1, e2]
            · have hC2L : ¬(dir = false ∧ a = u ∧ b ∈ L) := fun h => hbL h.2.2
              have hC2R : ¬(dir = false ∧ a = u ∧ (b = v ∨ b ∈ L)) :=
                fun h => h.2.2.elim hbv hbL
              rw [if_neg hC2L, if_neg hC2R, hW, if_neg (fun h => hbv h.2.2.2),
                if_neg (fun h => huv (hau.symm.trans h.2.1))]
        · have hC2L : ¬(dir = false ∧ a = u ∧ b ∈ L) := fun h => hau h.2.1
          have hC2R : ¬(dir = false ∧ a = u ∧ (b = v ∨ b ∈ L)) := fun h => hau h.2.1
          rw [if_neg hC2L, if_neg hC2R, hW, if_neg (fun h => hau h.2.2.1),
            if_neg (fun h => hbu h.2.2)]
      · have hC2L : ¬(dir = false ∧ a = u ∧ b ∈ L) := fun h => hd h.1
        have hC2R : ¬(dir = false ∧ a = u ∧ (b = v ∨ b ∈ L)) := fun h => hd h.1
        rw [if_neg hC2L, if_neg hC2R, hW, if_neg (fun h => hd h.2.1),
          if_neg (fun h => hbu h.2.2)]

theorem mem_nbrs_dir (s : SN) (h : s.directed = true) (x y : ℕ) :
    x ∈ get_neighbors s y ↔ x < s.n ∧ s.adj x y = true := by
  unfold get_neighbors
  rw [h]
  simp [List.mem_filter, List.mem_range]

theorem mem_nbrs_undir (s : SN) (h : s.directed = false) (x y : ℕ) :
    x ∈ get_neighbors s y ↔ x < s.n ∧ s.adj y x = true := by
  unfold get_neighbors
  rw [h]
  simp [List.mem_filter, List.mem_range]

theorem nbrs_sub (s : SN) (x y : ℕ) (h : x ∈ get_neighbors s y) : x < s.n := by
  cases hd : s.directed
  · exact ((mem_nbrs_undir s hd x y).mp h).1
  · exact ((mem_nbrs_dir s hd x y).mp h).1

theorem nbrs_nodup (s : SN) (u : ℕ) : (get_neighbors s u).Nodup := by
  unfold get_neighbors
  split
  · exact (List.nodup_range s.n).filter _
  · exact (List.nodup_range s.n).filter _

theorem not_self_nbr (s : SN) (hnl : ∀ x, x < s.n → s.adj x x = false) (u : ℕ) :
    u ∉ get_neighbors s u := by
  intro h
  cases hd : s.directed
  · rcases (mem_nbrs_undir s hd u u).mp h with ⟨h1, h2⟩
    rw [hnl u h1] at h2
    exact Bool.false_ne_true h2
  · rcases (mem_nbrs_dir s hd u u).mp h with ⟨h1, h2⟩
    rw [hnl u h1] at h2
    exact Bool.false_ne_true h2

theorem sym_nbr (s : SN)
    (hsym : s.directed = false → ∀ x y, x < s.n → y < s.n → s.adj x y = s.adj y x)
    (hd : s.directed = false) (x y : ℕ) (hx : x < s.n) (hy : y < s.n) :
    x ∈ get_neighbors s y ↔ y ∈ get_neighbors s x := by
  rw [mem_nbrs_undir s hd x y, mem_nbrs_undir s hd y x, hsym hd x y hx hy]
  simp [hx, hy]

/-- The predicted raw weight matrix after the first `m` iterations of
`initialize_edge_weights` (fixed-weight mode): diagonal 1 for processed
nodes, the configured weight on processed edges, 0 elsewhere. -/
def iewW (s : SN) (m : ℕ) : ℕ → ℕ → ℚ := fun a b =>
  if a = b ∧ a < m then 1
  else if (b < m ∧ a ∈ get_neighbors s b) ∨
      (s.directed = false ∧ a < m ∧ b ∈ get_neighbors s a) then s.weight
  else 0

theorem iewW_nonneg (s : SN) (hw : 0 ≤ s.weight) (m a b : ℕ) : 0 ≤ iewW s m a b := by
  unfold iewW
  split_ifs
  · norm_num
  · exact hw
  · exact le_refl 0

theorem iew_fold_frame (l : List ℕ) (t : SN) :
    ((l.foldl iew_step t).n = t.n) ∧ ((l.foldl iew_step t).adj = t.adj) ∧
    ((l.foldl iew_step t).directed = t.directed) ∧
    ((l.foldl iew_step t).weight = t.weight) ∧
    ((l.foldl iew_step t).symmetric = t.symmetric) := by
  induction l generalizing t with
  | nil => exact ⟨rfl, rfl, rfl, rfl, rfl⟩
  | cons v l ih => rw [List.foldl_cons]; exact ih (iew_step t v)

theorem get_neighbors_congr (t s : SN) (h1 : t.directed = s.directed) (h2 : t.n = s.n)
    (h3 : t.adj = s.adj) (x : ℕ) : get_neighbors t x = get_neighbors s x := by
  unfold get_neighbors
  rw [h1, h2, h3]

theorem iew_fold_main (s : SN)
    (hnl : ∀ x, x < s.n → s.adj x x = false)
    (hsym : s.directed = false → ∀ x y, x < s.n → y < s.n → s.adj x y = s.adj y x)
    (hw : 0 ≤ s.weight) :
    ∀ m, m ≤ s.n →
      (∀ a b, ((List.range m).foldl iew_step
          { s with weights := fun _ _ => 0, normalized := fun _ _ => 0 }).weights a b
        = iewW s m a b) ∧
      (∀ u, u < m → colSumN ((List.range m).foldl iew_step
          { s with weights := fun _ _ => 0, normalized := fun _ _ => 0 }) u = 1) := by
  intro m
  induction m with
  | zero =>
    intro _
    refine ⟨fun a b => ?_, fun u hu => absurd hu (Nat.not_lt_zero u)⟩
    simp [iewW, List.range_zero, List.foldl_nil]
  | succ m ih =>
    intro hm
    have hmn : m < s.n := hm
    obtain ⟨ihW, ihC⟩ := ih (Nat.le_of_succ_le hm)
    set s0 : SN := { s with weights := fun _ _ => 0, normalized := fun _ _ => 0 } with hs0
    set t : SN := (List.range m).foldl iew_step s0 with ht
    obtain ⟨hfn, hfadj, hfdir, hfw, hfsym⟩ := iew_fold_frame (List.range m) s0
    have hnbrs : ∀ x, get_neighbors t x = get_neighbors s x := fun x =>
      get_neighbors_congr t s hfdir hfn hfadj x
    have hfoldstep : (List.range (m + 1)).foldl iew_step s0 = iew_step t m := by
      rw [List.range_succ, List.foldl_append, List.foldl_cons, List.foldl_nil]
    rw [hfoldstep]
    have hinner : (get_neighbors t m).foldl (iew_nbr_step t.directed t.weight m) t.weights
        = (get_neighbors s m).foldl (iew_nbr_step s.directed s.weight m) t.weights := by
      rw [hnbrs m, hfdir, hfw]
    have hfold := iew_inner_eq s.directed s.weight m (get_neighbors s m)
      (not_self_nbr s hnl m) (nbrs_nodup s m) t.weights
    have hWnn : ∀ x y, 0 ≤ t.weights x y := fun x y => by
      rw [ihW x y]; exact iewW_nonneg s hw m x y
    have hstep : ∀ a b, (iew_step t m).weights a b =
        fupd2 ((get_neighbors s m).foldl (iew_nbr_step s.directed s.weight m) t.weights)
          m m 1 a b := by
      intro a b
      show fupd2 ((get_neighbors t m).foldl (iew_nbr_step t.directed t.weight m) t.weights)
          m m 1 a b = _
      rw [hinner]
    have hA : ∀ a b, (iew_step t m).weights a b = iewW s (m + 1) a b := by
      intro a b
      rw [hstep a b]
      unfold fupd2
      by_cases hdg : a = m ∧ b = m
      · rw [if_pos hdg]
        unfold iewW
        rw [if_pos ⟨hdg.1.trans hdg.2.symm, by omega⟩]
      · rw [if_neg hdg, hfold a b]
        by_cases hc1 : a ∈ get_neighbors s m ∧ b = m
        · have ham : a ≠ m := fun h => not_self_nbr s hnl m (h ▸ hc1.1)
          rw [if_pos hc1, hc1.2, ihW a m]
          by_cases hP : s.directed = false ∧ a < m ∧ m ∈ get_neighbors s a
          · rw [show iewW s m a m = s.weight from by
              unfold iewW; rw [if_neg (fun h => ham h.1), if_pos (Or.inr hP)]]
            rw [ite_self]
            unfold iewW
            rw [if_neg (fun h => ham h.1), if_pos (Or.inl ⟨by omega, hc1.1⟩)]
          · rw [show iewW s m a m = 0 from by
              unfold iewW
              rw [if_neg (fun h => ham h.1),
                if_neg (fun h => h.elim (fun h2 => absurd h2.1 (lt_irrefl m)) hP)]]
            rw [if_neg (by norm_num : ¬(0:ℚ) > 0)]
            unfold iewW
            rw [if_neg (fun h => ham h.1), if_pos (Or.inl ⟨by omega, hc1.1⟩)]
        · rw [if_neg hc1]
          by_cases hc2 : s.directed = false ∧ a = m ∧ b ∈ get_neighbors s m
          · obtain ⟨hdirF, ham, hbnb⟩ := hc2
            have hbm : b ≠ m := fun h => not_self_nbr s hnl m (h ▸ hbnb)
            have hbn : b < s.n := nbrs_sub s b m hbnb
            have hmb : m ∈ get_neighbors s b := (sym_nbr s hsym hdirF b m hbn hmn).mp hbnb
            rw [if_pos ⟨hdirF, ham, hbnb⟩, ihW b m, ihW a b]
            by_cases hblt : b < m
            · rw [show iewW s m b m = s.weight from by
                unfold iewW
                rw [if_neg (fun h => hbm h.1), if_pos (Or.inr ⟨hdirF, hblt, hmb⟩)]]
              rw [show iewW s m a b = s.weight from by
                unfold iewW
                rw [if_neg (fun h => hbm (h.1.symm.trans ham)),
                  if_pos (Or.inl ⟨hblt, by rw [ham]; exact hmb⟩)]]
              rw [ite_self]
              unfold iewW
              rw [if_neg (fun h => hbm (h.1.symm.trans ham)),
                if_pos (Or.inr ⟨hdirF, by omega, by rw [ham]; exact hbnb⟩)]
            · rw [show iewW s m b m = 0 from by
                unfold iewW
                rw [if_neg (fun h => hbm h.1),
                  if_neg (fun h => h.elim (fun h2 => absurd h2.1 (lt_irrefl m))
                    (fun h2 => absurd h2.2.1 hblt))]]
              rw [if_neg (by norm_num : ¬(0:ℚ) > 0)]
              unfold iewW
              rw [if_neg (fun h => hbm (h.1.symm.trans ham)),
                if_pos (Or.inr ⟨hdirF, by omega, by rw [ham]; exact hbnb⟩)]
          · rw [if_neg hc2, ihW a b]
            unfold iewW
            have h1 : (a = b ∧ a < m) ↔ (a = b ∧ a < m + 1) := by
              constructor
              · rintro ⟨h, hl⟩; exact ⟨h, by omega⟩
              · rintro ⟨h, hl⟩
                refine ⟨h, ?_⟩
                rcases Nat.lt_succ_iff_lt_or_eq.mp hl with h2 | h2
                · exact h2
                · exact absurd ⟨h2, h ▸ h2⟩ hdg
            have h2iff : ((b < m ∧ a ∈ get_neighbors s b) ∨
                (s.directed = false ∧ a < m ∧ b ∈ get_neighbors s a))
                ↔ ((b < m + 1 ∧ a ∈ get_neighbors s b) ∨
                (s.directed = false ∧ a < m + 1 ∧ b ∈ get_neighbors s a)) := by
              constructor
              · rintro (⟨hl, hm2⟩ | ⟨hd2, hl, hm2⟩)
                · exact Or.inl ⟨by omega, hm2⟩
                · exact Or.inr ⟨hd2, by omega, hm2⟩
              · rintro (⟨hl, hm2⟩ | ⟨hd2, hl, hm2⟩)
                · rcases Nat.lt_succ_iff_lt_or_eq.mp hl with h3 | h3
                  · exact Or.inl ⟨h3, hm2⟩
                  · exact absurd ⟨h3 ▸ hm2, h3⟩ hc1
                · rcases Nat.lt_succ_iff_lt_or_eq.mp hl with h3 | h3
                  · exact Or.inr ⟨hd2, h3, hm2⟩
                  · exact absurd ⟨hd2, h3, h3 ▸ hm2⟩ hc2
            rw [if_congr h1 rfl (if_congr h2iff rfl rfl)]
    refine ⟨hA, ?_⟩
    intro u hu
    by_cases hum : u < m
    · exact (colSumN_uwc_other _ m u (by omega)).trans (ihC u hum)
    · have hueq : u = m := by omega
      subst hueq
      refine colSumN_update _ u ?_ ?_ ?_ ?_
      · show u < t.n
        rw [hfn]
        exact hmn
      · exact (hA u u).trans (by unfold iewW; rw [if_pos ⟨rfl, by omega⟩])
      · intro v hv hvu hvnb
        have hvn : v < s.n := by
          have h0 : v < t.n := hv
          rwa [hfn] at h0
        have hvnb2 : v ∉ get_neighbors s u := by
          have h0 : v ∉ get_neighbors t u := hvnb
          rwa [hnbrs u] at h0
        refine (hA v u).trans ?_
        unfold iewW
        rw [if_neg (fun h => hvu h.1),
          if_neg (fun h => h.elim (fun h2 => hvnb2 h2.2)
            (fun h2 => hvnb2 ((sym_nbr s hsym h2.1 u v hmn hvn).mp h2.2.2)))]
      · intro v hv
        exact le_of_le_of_eq (iewW_nonneg s hw (u + 1) v u) (hA v u).symm

/-! ## Theory: the weight/normalization invariant over reachable states -/

/-- The configuration and weight-structure invariant maintained by
`initialize_edge_weights`, `connect`, and `disconnect` between distinct
endpoints: consistent flags, a loop-free (and, undirected, symmetric)
adjacency, unit self-weights, raw weights supported on the neighbor
relation, nonnegative weights, and unit normalized column sums. -/
structure SNInv (s : SN) : Prop where
  dir_sym : s.directed = false → s.symmetric = false
  adj_sym : s.directed = false → ∀ a b, a < s.n → b < s.n → s.adj a b = s.adj b a
  no_loop : ∀ a, a < s.n → s.adj a a = false
  wnn : 0 ≤ s.weight
  diag : ∀ x, x < s.n → s.weights x x = 1
  pat : ∀ a b, a < s.n → b < s.n → a ≠ b → a ∉ get_neighbors s b → s.weights a b = 0
  nneg : ∀ a b, a < s.n → b < s.n → 0 ≤ s.weights a b
  norm : ∀ x, x < s.n → colSumN s x = 1

/-- Recomputing columns `u` then `v` on a state whose weight structure is
sound and whose other columns already sum to 1 restores the full invariant. -/
theorem inv_uwc2 (t : SN) (u v : ℕ) (hu : u < t.n) (hv : v < t.n)
    (h1 : t.directed = false → t.symmetric = false)
    (h2 : t.directed = false → ∀ a b, a < t.n → b < t.n → t.adj a b = t.adj b a)
    (h3 : ∀ a, a < t.n → t.adj a a = false)
    (h4 : 0 ≤ t.weight)
    (hdiag : ∀ x, x < t.n → t.weights x x = 1)
    (hpat : ∀ a b, a < t.n → b < t.n → a ≠ b → a ∉ get_neighbors t b → t.weights a b = 0)
    (hnneg : ∀ a b, a < t.n → b < t.n → 0 ≤ t.weights a b)
    (hnorm : ∀ x, x < t.n → x ≠ u → x ≠ v → colSumN t x = 1) :
    SNInv (update_weight_column (update_weight_column t u) v) := by
  refine ⟨h1, h2, h3, h4, hdiag, hpat, hnneg, ?_⟩
  intro x hx
  by_cases hxv : x = v
  · subst hxv
    exact colSumN_update (update_weight_column t u) x hx (hdiag x hx)
      (fun a ha hax hanb => hpat a x ha hx hax hanb)
      (fun a ha => hnneg a x ha hx)
  · by_cases hxu : x = u
    · subst hxu
      refine (colSumN_uwc_other (update_weight_column t x) v x hxv).trans ?_
      exact colSumN_update t x hx (hdiag x hx)
        (fun a ha hax hanb => hpat a x ha hx hax hanb)
        (fun a ha => hnneg a x ha hx)
    · refine (colSumN_uwc_other (update_weight_column t u) v x hxv).trans ?_
      refine (colSumN_uwc_other t u x hxu).trans ?_
      exact hnorm x hx hxu hxv

theorem fupd2_ne (f : ℕ → ℕ → ℚ) (i j a b : ℕ) (x : ℚ) (h : ¬(a = i ∧ b = j)) :
    fupd2 f i j x a b = f a b := by
  simp [fupd2, h]

theorem fupd2_self (f : ℕ → ℕ → ℚ) (i j : ℕ) (x : ℚ) : fupd2 f i j x i j = x := by
  simp [fupd2]

theorem addEdgeAdj_other (adj : ℕ → ℕ → Bool) (d : Bool) (u v a b : ℕ)
    (h1 : ¬(a = u ∧ b = v)) (h2 : ¬(a = v ∧ b = u)) :
    addEdgeAdj adj d u v a b = adj a b := by
  unfold addEdgeAdj
  cases d <;> simp [h1, h2]

theorem addEdgeAdj_mono (adj : ℕ → ℕ → Bool) (d : Bool) (u v a b : ℕ)
    (h : adj a b = true) : addEdgeAdj adj d u v a b = true := by
  unfold addEdgeAdj
  cases d <;> simp [h]

theorem nbrs_mono (t s : SN) (hd : t.directed = s.directed) (hn : t.n = s.n)
    (hadj : ∀ x y, s.adj x y = true → t.adj x y = true) (x y : ℕ)
    (h : x ∈ get_neighbors s y) : x ∈ get_neighbors t y := by
  cases hds : s.directed
  · rw [mem_nbrs_undir s hds x y] at h
    rw [mem_nbrs_undir t (hd.trans hds) x y, hn]
    exact ⟨h.1, hadj y x h.2⟩
  · rw [mem_nbrs_dir s hds x y] at h
    rw [mem_nbrs_dir t (hd.trans hds) x y, hn]
    exact ⟨h.1, hadj x y h.2⟩

/-- The state built by `connect_body` before the two column recomputations
(the let-chain `s1`-`s4` of the source). -/
def connS4 (s : SN) (u v : ℕ) : SN :=
  let s1 := { s with adj := addEdgeAdj s.adj s.directed u v }
  let s2 := { s1 with weights := fupd2 s1.weights u v s.weight }
  let s3 :=
    if s.visibility = "visible" then
      { s2 with masks := fun a b k =>
          if a = v ∧ b = u ∧ k < s.dimensions then s.attribute_space u k
          else s2.masks a b k }
    else s2
  if s.symmetric then
    let t1 := { s3 with adj := addEdgeAdj s3.adj s3.directed v u }
    let t2 := { t1 with weights := fupd2 t1.weights v u s.weight }
    if s.visibility = "visible" then
      { t2 with masks := fun a b k =>
          if a = u ∧ b = v ∧ k < s.dimensions then s.attribute_space v k
          else t2.masks a b k }
    else t2
  else s3

theorem connect_body_eq (s : SN) (u v : ℕ) :
    connect_body s u v = update_weight_column (update_weight_column (connS4 s u v) u) v := by
  unfold connect_body connS4
  split_ifs <;> rfl

theorem connS4_frame (s : SN) (u v : ℕ) :
    (connS4 s u v).n = s.n ∧ (connS4 s u v).directed = s.directed ∧
    (connS4 s u v).symmetric = s.symmetric ∧ (connS4 s u v).weight = s.weight ∧
    (connS4 s u v).normalized = s.normalized := by
  unfold connS4
  split_ifs <;> exact ⟨rfl, rfl, rfl, rfl, rfl⟩

theorem connS4_adj (s : SN) (u v : ℕ) :
    (connS4 s u v).adj = (if s.symmetric = true then
      addEdgeAdj (addEdgeAdj s.adj s.directed u v) s.directed v u
    else addEdgeAdj s.adj s.directed u v) := by
  unfold connS4
  split_ifs with h1 h2 h3 <;> simp_all

theorem connS4_weights (s : SN) (u v : ℕ) :
    (connS4 s u v).weights = (if s.symmetric = true then
      fupd2 (fupd2 s.weights u v s.weight) v u s.weight
    else fupd2 s.weights u v s.weight) := by
  unfold connS4
  split_ifs with h1 h2 h3 <;> simp_all

theorem inv_connect_body (s : SN) (u v : ℕ) (huv : u ≠ v) (hu : u < s.n)
    (hv : v < s.n) (hI : SNInv s) : SNInv (connect_body s u v) := by
  obtain ⟨hfn, hfd, hfs, hfw, hfnorm⟩ := connS4_frame s u v
  have hadjmono : ∀ x y, s.adj x y = true → (connS4 s u v).adj x y = true := by
    intro x y h
    rw [connS4_adj]
    split_ifs
    · exact addEdgeAdj_mono _ _ _ _ _ _ (addEdgeAdj_mono _ _ _ _ _ _ h)
    · exact addEdgeAdj_mono _ _ _ _ _ _ h
  have hmemuv : u ∈ get_neighbors (connS4 s u v) v := by
    cases hds : s.directed
    · rw [mem_nbrs_undir _ (hfd.trans hds) u v, hfn]
      refine ⟨hu, ?_⟩
      rw [connS4_adj]
      have hss : s.symmetric = false := hI.dir_sym hds
      rw [hss]
      simp only [Bool.false_eq_true, if_false]
      unfold addEdgeAdj
      rw [hds]
      simp
    · rw [mem_nbrs_dir _ (hfd.trans hds) u v, hfn]
      refine ⟨hu, ?_⟩
      rw [connS4_adj]
      split_ifs
      · exact addEdgeAdj_mono _ _ _ _ _ _ (by unfold addEdgeAdj; rw [hds]; simp)
      · unfold addEdgeAdj
        rw [hds]
        simp
  have hmemvu : s.symmetric = true → v ∈ get_neighbors (connS4 s u v) u := by
    intro hss
    have hds : s.directed = true := by
      cases hd2 : s.directed
      · exact absurd (hI.dir_sym hd2) (by rw [hss]; simp)
      · rfl
    rw [mem_nbrs_dir _ (hfd.trans hds) v u, hfn]
    refine ⟨hv, ?_⟩
    rw [connS4_adj, if_pos hss]
    unfold addEdgeAdj
    rw [hds]
    simp
  rw [connect_body_eq]
  refine inv_uwc2 _ u v (by rw [hfn]; exact hu) (by rw [hfn]; exact hv) ?_ ?_ ?_ ?_ ?_ ?_ ?_ ?_
  · rw [hfd, hfs]; exact hI.dir_sym
  · rw [hfd, hfn]
    intro hds a b ha hb
    have hss : s.symmetric = false := hI.dir_sym hds
    rw [connS4_adj, hss]
    simp only [Bool.false_eq_true, if_false]
    unfold addEdgeAdj
    rw [hds]
    simp only [Bool.false_eq_true, if_false]
    by_cases hc : (a = u ∧ b = v) ∨ (a = v ∧ b = u)
    · rw [if_pos hc, if_pos (by tauto)]
    · rw [if_neg hc, if_neg (by tauto), hI.adj_sym hds a b ha hb]
  · rw [hfn]
    intro a ha
    rw [connS4_adj]
    have hne1 : ¬(a = u ∧ a = v) := fun h => huv (h.1.symm.trans h.2)
    have hne2 : ¬(a = v ∧ a = u) := fun h => huv (h.2.symm.trans h.1)
    split_ifs
    · rw [addEdgeAdj_other _ _ _ _ _ _ hne2 hne1, addEdgeAdj_other _ _ _ _ _ _ hne1 hne2]
      exact hI.no_loop a ha
    · rw [addEdgeAdj_other _ _ _ _ _ _ hne1 hne2]
      exact hI.no_loop a ha
  · rw [hfw]; exact hI.wnn
  · rw [hfn]
    intro x hx
    rw [connS4_weights]
    have hne1 : ¬(x = u ∧ x = v) := fun h => huv (h.1.symm.trans h.2)
    have hne2 : ¬(x = v ∧ x = u) := fun h => huv (h.2.symm.trans h.1)
    split_ifs
    · rw [fupd2_ne _ _ _ _ _ _ hne2, fupd2_ne _ _ _ _ _ _ hne1]
      exact hI.diag x hx
    · rw [fupd2_ne _ _ _ _ _ _ hne1]
      exact hI.diag x hx
  · rw [hfn]
    intro a b ha hb hab hanb
    rw [connS4_weights]
    by_cases hc1 : a = u ∧ b = v
    · rw [hc1.1, hc1.2] at hanb
      exact absurd hmemuv hanb
    · by_cases hc2 : (a = v ∧ b = u) ∧ s.symmetric = true
      · rw [hc2.1.1, hc2.1.2] at hanb
        exact absurd (hmemvu hc2.2) hanb
      · have hanb2 : a ∉ get_neighbors s b := fun h =>
          hanb (nbrs_mono _ s hfd hfn hadjmono a b h)
        split_ifs with hss
        · rw [fupd2_ne _ _ _ _ _ _ (fun h => hc2 ⟨h, hss⟩), fupd2_ne _ _ _ _ _ _ hc1]
          exact hI.pat a b ha hb hab hanb2
        · rw [fupd2_ne _ _ _ _ _ _ hc1]
          exact hI.pat a b ha hb hab hanb2
  · rw [hfn]
    intro a b ha hb
    rw [connS4_weights]
    split_ifs
    · unfold fupd2
      split_ifs
      · exact hI.wnn
      · exact hI.wnn
      · exact hI.nneg a b ha hb
    · unfold fupd2
      split_ifs
      · exact hI.wnn
      · exact hI.nneg a b ha hb
  · intro x hx _ _
    have : colSumN (connS4 s u v) x = colSumN s x := by
      unfold colSumN
      rw [hfn, hfnorm]
    rw [this]
    exact hI.norm x (by rw [hfn] at hx; exact hx)

theorem removeEdgeAdj_some_other (s : SN) (u v : ℕ) (adj2 : ℕ → ℕ → Bool)
    (h : removeEdgeAdj s u v = some adj2) (x y : ℕ)
    (hxy : ¬((x = u ∧ y = v) ∨ (x = v ∧ y = u))) : adj2 x y = s.adj x y := by
  unfold removeEdgeAdj at h
  split_ifs at h with hadj hdir
  · injection h with h2
    subst h2
    show (if x = u ∧ y = v then false else s.adj x y) = s.adj x y
    rw [if_neg (fun h1 => hxy (Or.inl h1))]
  · injection h with h2
    subst h2
    show (if (x = u ∧ y = v) ∨ (x = v ∧ y = u) then false else s.adj x y) = s.adj x y
    rw [if_neg hxy]

theorem removeEdgeAdj_some_sub (s : SN) (u v : ℕ) (adj2 : ℕ → ℕ → Bool)
    (h : removeEdgeAdj s u v = some adj2) (x y : ℕ) (hxy : adj2 x y = true) :
    s.adj x y = true := by
  unfold removeEdgeAdj at h
  split_ifs at h with hadj hdir
  · injection h with h2
    subst h2
    have hxy2 : (if x = u ∧ y = v then false else s.adj x y) = true := hxy
    revert hxy2
    split_ifs
    · exact fun h2 => absurd h2 (by simp)
    · exact id
  · injection h with h2
    subst h2
    have hxy2 : (if (x = u ∧ y = v) ∨ (x = v ∧ y = u) then false else s.adj x y) = true := hxy
    revert hxy2
    split_ifs
    · exact fun h2 => absurd h2 (by simp)
    · exact id

theorem removeEdgeAdj_some_symm (s : SN) (u v : ℕ) (adj2 : ℕ → ℕ → Bool)
    (h : removeEdgeAdj s u v = some adj2) (hd : s.directed = false)
    (hsym : ∀ a b, a < s.n → b < s.n → s.adj a b = s.adj b a) (a b : ℕ)
    (ha : a < s.n) (hb : b < s.n) : adj2 a b = adj2 b a := by
  unfold removeEdgeAdj at h
  split_ifs at h with hadj hdir
  · exact absurd hdir (by rw [hd]; simp)
  · injection h with h2
    subst h2
    show (if (a = u ∧ b = v) ∨ (a = v ∧ b = u) then false else s.adj a b)
      = (if (b = u ∧ a = v) ∨ (b = v ∧ a = u) then false else s.adj b a)
    by_cases hc : (a = u ∧ b = v) ∨ (a = v ∧ b = u)
    · rw [if_pos hc, if_pos (by tauto)]
    · rw [if_neg hc, if_neg (by tauto)]
      exact hsym a b ha hb

theorem disc_s1_frame (s : SN) (u v : ℕ) :
    (disc_s1 s u v).n = s.n ∧ (disc_s1 s u v).directed = s.directed ∧
    (disc_s1 s u v).symmetric = s.symmetric ∧ (disc_s1 s u v).weight = s.weight ∧
    (disc_s1 s u v).normalized = s.normalized ∧ (disc_s1 s u v).weights = s.weights := by
  unfold disc_s1
  cases h : removeEdgeAdj s u v <;> exact ⟨rfl, rfl, rfl, rfl, rfl, rfl⟩

theorem disc_s1_adj_other (s : SN) (u v : ℕ) (x y : ℕ)
    (hxy : ¬((x = u ∧ y = v) ∨ (x = v ∧ y = u))) :
    (disc_s1 s u v).adj x y = s.adj x y := by
  unfold disc_s1
  cases h : removeEdgeAdj s u v with
  | none => rfl
  | some adj2 => exact removeEdgeAdj_some_other s u v adj2 h x y hxy

theorem disc_s1_adj_sub (s : SN) (u v : ℕ) (x y : ℕ)
    (h : (disc_s1 s u v).adj x y = true) : s.adj x y = true := by
  revert h
  unfold disc_s1
  cases h2 : removeEdgeAdj s u v with
  | none => exact id
  | some adj2 => exact removeEdgeAdj_some_sub s u v adj2 h2 x y

theorem disc_s1_adj_symm (s : SN) (u v : ℕ) (hd : s.directed = false)
    (hsym : ∀ a b, a < s.n → b < s.n → s.adj a b = s.adj b a) (a b : ℕ)
    (ha : a < s.n) (hb : b < s.n) :
    (disc_s1 s u v).adj a b = (disc_s1 s u v).adj b a := by
  unfold disc_s1
  cases h : removeEdgeAdj s u v with
  | none => exact hsym a b ha hb
  | some adj2 => exact removeEdgeAdj_some_symm s u v adj2 h hd hsym a b ha hb

theorem disc_s2_frame (s : SN) (u v : ℕ) :
    (disc_s2 s u v).n = s.n ∧ (disc_s2 s u v).directed = s.directed ∧
    (disc_s2 s u v).symmetric = s.symmetric ∧ (disc_s2 s u v).weight = s.weight ∧
    (disc_s2 s u v).normalized = s.normalized ∧ (disc_s2 s u v).weights = s.weights := by
  unfold disc_s2
  obtain ⟨f1, f2, f3, f4, f5, f6⟩ := disc_s1_frame s u v
  split_ifs
  · cases h : removeEdgeAdj (disc_s1 s u v) v u <;> exact ⟨f1, f2, f3, f4, f5, f6⟩
  · exact ⟨f1, f2, f3, f4, f5, f6⟩

theorem disc_s2_adj_other (s : SN) (u v : ℕ) (x y : ℕ)
    (hxy : ¬((x = u ∧ y = v) ∨ (x = v ∧ y = u))) :
    (disc_s2 s u v).adj x y = s.adj x y := by
  unfold disc_s2
  split_ifs
  · cases h : removeEdgeAdj (disc_s1 s u v) v u with
    | none => exact disc_s1_adj_other s u v x y hxy
    | some adj3 =>
      refine (removeEdgeAdj_some_other _ v u adj3 h x y (by tauto)).trans
        (disc_s1_adj_other s u v x y hxy)
  · exact disc_s1_adj_other s u v x y hxy

theorem disc_s2_adj_sub (s : SN) (u v : ℕ) (x y : ℕ)
    (h : (disc_s2 s u v).adj x y = true) : s.adj x y = true := by
  revert h
  unfold disc_s2
  split_ifs
  · cases h2 : removeEdgeAdj (disc_s1 s u v) v u with
    | none => exact disc_s1_adj_sub s u v x y
    | some adj3 =>
      intro h
      exact disc_s1_adj_sub s u v x y (removeEdgeAdj_some_sub _ v u adj3 h2 x y h)
  · exact disc_s1_adj_sub s u v x y

theorem disc_s2_eq_nonsym (s : SN) (u v : ℕ) (h : s.symmetric = false) :
    disc_s2 s u v = disc_s1 s u v := by
  unfold disc_s2
  rw [h]
  simp

theorem inv_disconnect_body (s : SN) (u v : ℕ) (huv : u ≠ v) (hu : u < s.n)
    (hv : v < s.n) (hI : SNInv s) : SNInv (disconnect_body s u v) := by
  obtain ⟨f1, f2, f3, f4, f5, f6⟩ := disc_s2_frame s u v
  have g1 : (discS3 s u v).n = s.n := f1
  have g2 : (discS3 s u v).directed = s.directed := f2
  have gw : ∀ a b, (discS3 s u v).weights a b =
      if (a = u ∧ b = v) ∨ (a = v ∧ b = u) then 0 else s.weights a b := by
    intro a b
    show (if (a = u ∧ b = v) ∨ (a = v ∧ b = u) then 0
      else (disc_s2 s u v).weights a b) = _
    rw [f6]
  unfold disconnect_body
  refine inv_uwc2 _ u v (by rw [g1]; exact hu) (by rw [g1]; exact hv) ?_ ?_ ?_ ?_ ?_ ?_ ?_ ?_
  · rw [show (discS3 s u v).directed = s.directed from f2,
      show (discS3 s u v).symmetric = s.symmetric from f3]
    exact hI.dir_sym
  · intro hd a b ha hb
    have hds : s.directed = false := by rw [← g2]; exact hd
    have hss : s.symmetric = false := hI.dir_sym hds
    show (disc_s2 s u v).adj a b = (disc_s2 s u v).adj b a
    rw [disc_s2_eq_nonsym s u v hss]
    exact disc_s1_adj_symm s u v hds (hI.adj_sym hds) a b
      (by rw [← g1]; exact ha) (by rw [← g1]; exact hb)
  · intro a ha
    show (disc_s2 s u v).adj a a = false
    cases hval : (disc_s2 s u v).adj a a
    · rfl
    · exact absurd (disc_s2_adj_sub s u v a a hval)
        (by rw [hI.no_loop a (by rw [← g1]; exact ha)]; simp)
  · rw [show (discS3 s u v).weight = s.weight from f4]
    exact hI.wnn
  · intro x hx
    rw [gw x x, if_neg (fun h => h.elim (fun h2 => huv (h2.1.symm.trans h2.2))
      (fun h2 => huv (h2.2.symm.trans h2.1)))]
    exact hI.diag x (by rw [← g1]; exact hx)
  · intro a b ha hb hab hanb
    rw [gw a b]
    by_cases hc : (a = u ∧ b = v) ∨ (a = v ∧ b = u)
    · rw [if_pos hc]
    · rw [if_neg hc]
      have ha2 : a < s.n := by rw [← g1]; exact ha
      have hb2 : b < s.n := by rw [← g1]; exact hb
      refine hI.pat a b ha2 hb2 hab (fun hmem => hanb ?_)
      cases hds : s.directed
      · rw [mem_nbrs_undir s hds a b] at hmem
        rw [mem_nbrs_undir _ (g2.trans hds) a b, g1]
        refine ⟨hmem.1, ?_⟩
        show (disc_s2 s u v).adj b a = true
        rw [disc_s2_adj_other s u v b a (by tauto)]
        exact hmem.2
      · rw [mem_nbrs_dir s hds a b] at hmem
        rw [mem_nbrs_dir _ (g2.trans hds) a b, g1]
        refine ⟨hmem.1, ?_⟩
        show (disc_s2 s u v).adj a b = true
        rw [disc_s2_adj_other s u v a b hc]
        exact hmem.2
  · intro a b ha hb
    rw [gw a b]
    split_ifs
    · exact le_refl 0
    · exact hI.nneg a b (by rw [← g1]; exact ha) (by rw [← g1]; exact hb)
  · intro x hx _ _
    have hcol : colSumN (discS3 s u v) x = colSumN s x := by
      unfold colSumN
      rw [g1, show (discS3 s u v).normalized = s.normalized from f5]
    rw [hcol]
    exact hI.norm x (by rw [← g1]; exact hx)

theorem inv_init (s : SN)
    (h1 : s.directed = false → s.symmetric = false)
    (h2 : s.directed = false → ∀ a b, a < s.n → b < s.n → s.adj a b = s.adj b a)
    (h3 : ∀ a, a < s.n → s.adj a a = false)
    (h4 : 0 ≤ s.weight) : SNInv (initialize_edge_weights s) := by
  have hfr := iew_fold_frame (List.range s.n)
    { s with weights := fun _ _ => 0, normalized := fun _ _ => 0 }
  have hfn : (initialize_edge_weights s).n = s.n := hfr.1
  have hfadj : (initialize_edge_weights s).adj = s.adj := hfr.2.1
  have hfdir : (initialize_edge_weights s).directed = s.directed := hfr.2.2.1
  have hfw : (initialize_edge_weights s).weight = s.weight := hfr.2.2.2.1
  have hfsym : (initialize_edge_weights s).symmetric = s.symmetric := hfr.2.2.2.2
  have hmain := iew_fold_main s h3 h2 h4 s.n (le_refl s.n)
  have hW : ∀ a b, (initialize_edge_weights s).weights a b = iewW s s.n a b := hmain.1
  have hC : ∀ u, u < s.n → colSumN (initialize_edge_weights s) u = 1 := hmain.2
  have hnbrs : ∀ x, get_neighbors (initialize_edge_weights s) x = get_neighbors s x :=
    get_neighbors_congr _ s hfdir hfn hfadj
  refine ⟨?_, ?_, ?_, ?_, ?_, ?_, ?_, ?_⟩
  · rw [hfdir, hfsym]; exact h1
  · rw [hfdir]
    simp only [hfn, hfadj]
    exact h2
  · simp only [hfn, hfadj]
    exact h3
  · rw [hfw]; exact h4
  · intro x hx
    rw [hfn] at hx
    refine (hW x x).trans ?_
    unfold iewW
    rw [if_pos ⟨rfl, hx⟩]
  · intro a b ha hb hab hanb
    rw [hfn] at ha hb
    rw [hnbrs b] at hanb
    refine (hW a b).trans ?_
    unfold iewW
    rw [if_neg (fun h => hab h.1),
      if_neg (fun h => h.elim (fun hq => hanb hq.2)
        (fun hq => hanb ((sym_nbr s h2 hq.1 b a hb ha).mp hq.2.2)))]
  · intro a b _ _
    exact le_of_le_of_eq (iewW_nonneg s h4 s.n a b) (hW a b).symm
  · intro x hx
    rw [hfn] at hx
    exact hC x hx

theorem inv_connect (s s2 : SN) (u v : ℕ) (hI : SNInv s)
    (hc : connect s u v = Except.ok s2) : SNInv s2 := by
  unfold connect at hc
  by_cases huv : u = v
  · rw [if_pos huv] at hc
    injection hc with h
    rw [← h]
    exact hI
  · rw [if_neg huv] at hc
    by_cases hb : u < s.n ∧ v < s.n
    · rw [if_pos hb] at hc
      by_cases hvr : s.visibility = "random"
      · rw [if_pos hvr] at hc
        exact absurd hc (by simp)
      · rw [if_neg hvr] at hc
        injection hc with h
        rw [← h]
        exact inv_connect_body s u v huv hb.1 hb.2 hI
    · rw [if_neg hb] at hc
      exact absurd hc (by simp)

theorem inv_disconnect (s s2 : SN) (u v : ℕ) (r : ℚ) (huv : u ≠ v) (hI : SNInv s)
    (hd : disconnect s u v r = Except.ok s2) : SNInv s2 := by
  unfold disconnect at hd
  by_cases hg : r < s.unfriend
  · rw [if_pos hg] at hd
    injection hd with h
    rw [← h]
    exact hI
  · rw [if_neg hg] at hd
    by_cases hb : u < s.n ∧ v < s.n
    · rw [if_pos hb] at hd
      injection hd with h
      rw [← h]
      exact inv_disconnect_body s u v huv hb.1 hb.2 hI
    · rw [if_neg hb] at hd
      exact absurd hd (by simp)

/-- The states of the weight model reachable from a freshly generated graph:
`initialize_edge_weights` on any loop-free graph state (with a symmetric
adjacency when undirected, consistent flags, and a nonnegative configured
weight), followed by any sequence of `connect` calls and `disconnect` calls
between distinct endpoints. -/
inductive Reachable : SN → Prop
  | start (s : SN)
      (h1 : s.directed = false → s.symmetric = false)
      (h2 : s.directed = false → ∀ a b, a < s.n → b < s.n → s.adj a b = s.adj b a)
      (h3 : ∀ a, a < s.n → s.adj a a = false)
      (h4 : 0 ≤ s.weight) :
      Reachable (initialize_edge_weights s)
  | conn (s s2 : SN) (u v : ℕ) (h : Reachable s)
      (hc : connect s u v = Except.ok s2) : Reachable s2
  | disc (s s2 : SN) (u v : ℕ) (r : ℚ) (h : Reachable s) (huv : u ≠ v)
      (hd : disconnect s u v r = Except.ok s2) : Reachable s2

theorem reach_inv (s : SN) (h : Reachable s) : SNInv s := by
  induction h with
  | start s h1 h2 h3 h4 => exact inv_init s h1 h2 h3 h4
  | conn s s2 u v h hc ih => exact inv_connect s s2 u v ih hc
  | disc s s2 u v r h huv hd ih => exact inv_disconnect s s2 u v r huv ih hd

/-! ## Further helper lemmas for the claims -/

theorem removeEdgeAdj_some_self (s : SN) (u v : ℕ) (adj2 : ℕ → ℕ → Bool)
    (h : removeEdgeAdj s u v = some adj2) : adj2 u v = false := by
  unfold removeEdgeAdj at h
  split_ifs at h with hadj hdir
  · injection h with h2
    subst h2
    show (if u = u ∧ v = v then false else s.adj u v) = false
    rw [if_pos ⟨rfl, rfl⟩]
  · injection h with h2
    subst h2
    show (if (u = u ∧ v = v) ∨ (u = v ∧ v = u) then false else s.adj u v) = false
    rw [if_pos (Or.inl ⟨rfl, rfl⟩)]

theorem disc_s1_adj_uv (s : SN) (u v : ℕ) : (disc_s1 s u v).adj u v = false := by
  unfold disc_s1
  cases h : removeEdgeAdj s u v with
  | none =>
    unfold removeEdgeAdj at h
    by_cases he : s.adj u v = true
    · rw [if_pos he] at h
      exact Option.noConfusion h
    · exact Bool.eq_false_iff.mpr he
  | some adj2 => exact removeEdgeAdj_some_self s u v adj2 h

theorem disc_s2_adj_sub1 (s : SN) (u v x y : ℕ)
    (h : (disc_s2 s u v).adj x y = true) : (disc_s1 s u v).adj x y = true := by
  revert h
  unfold disc_s2
  split_ifs
  · cases h2 : removeEdgeAdj (disc_s1 s u v) v u with
    | none => exact id
    | some adj3 => exact removeEdgeAdj_some_sub _ v u adj3 h2 x y
  · exact id

theorem disc_s2_masks (s : SN) (u v : ℕ) :
    (disc_s2 s u v).masks = (disc_s1 s u v).masks := by
  unfold disc_s2
  split_ifs
  · cases h : removeEdgeAdj (disc_s1 s u v) v u <;> rfl
  · rfl

theorem disc_s1_masks_zero (s : SN) (u v : ℕ) (he : s.adj u v = true) (k : ℕ)
    (hk : k < s.dimensions) :
    (disc_s1 s u v).masks v u k = 0 ∧ (disc_s1 s u v).masks u v k = 0 := by
  unfold disc_s1
  cases h : removeEdgeAdj s u v with
  | none =>
    unfold removeEdgeAdj at h
    rw [if_pos he] at h
    exact Option.noConfusion h
  | some adj2 =>
    constructor
    · show (if ((v = v ∧ u = u) ∨ (v = u ∧ u = v)) ∧ k < s.dimensions then 0
          else s.masks v u k) = 0
      rw [if_pos ⟨Or.inl ⟨rfl, rfl⟩, hk⟩]
    · show (if ((u = v ∧ v = u) ∨ (u = u ∧ v = v)) ∧ k < s.dimensions then 0
          else s.masks u v k) = 0
      rw [if_pos ⟨Or.inr ⟨rfl, rfl⟩, hk⟩]

theorem disc_s1_masks_other (s : SN) (u v i j k : ℕ)
    (h1 : ¬(i = v ∧ j = u)) (h2 : ¬(i = u ∧ j = v)) :
    (disc_s1 s u v).masks i j k = s.masks i j k := by
  unfold disc_s1
  cases h : removeEdgeAdj s u v with
  | none => rfl
  | some adj2 =>
    show (if ((i = v ∧ j = u) ∨ (i = u ∧ j = v)) ∧ k < s.dimensions then 0
        else s.masks i j k) = s.masks i j k
    rw [if_neg (fun hc => hc.1.elim h1 h2)]

theorem disc_adj_cleared (s : SN) (u v : ℕ) : (disconnect_body s u v).adj u v = false := by
  have e : (disconnect_body s u v).adj = (disc_s2 s u v).adj := rfl
  rw [e]
  cases hc : (disc_s2 s u v).adj u v with
  | false => rfl
  | true =>
    have h1 := disc_s2_adj_sub1 s u v u v hc
    rw [disc_s1_adj_uv s u v] at h1
    exact Bool.noConfusion h1

theorem disconnect_body_weights_uv (s : SN) (u v : ℕ) :
    (disconnect_body s u v).weights u v = 0 ∧ (disconnect_body s u v).weights v u = 0 := by
  constructor
  · show (if (u = u ∧ v = v) ∨ (u = v ∧ v = u) then 0
      else (disc_s2 s u v).weights u v) = 0
    rw [if_pos (Or.inl ⟨rfl, rfl⟩)]
  · show (if (v = u ∧ u = v) ∨ (v = v ∧ u = u) then 0
      else (disc_s2 s u v).weights v u) = 0
    rw [if_pos (Or.inr ⟨rfl, rfl⟩)]

theorem disconnect_body_masks_other (s : SN) (u v i j k : ℕ)
    (h1 : ¬(i = v ∧ j = u)) (h2 : ¬(i = u ∧ j = v)) :
    (disconnect_body s u v).masks i j k = s.masks i j k := by
  have e : (disconnect_body s u v).masks = (disc_s1 s u v).masks := disc_s2_masks s u v
  rw [e]
  exact disc_s1_masks_other s u v i j k h1 h2

theorem uwc_attr (s : SN) (u : ℕ) :
    (update_weight_column s u).attribute_space = s.attribute_space := rfl

theorem connS4_attr (s : SN) (u v : ℕ) :
    (connS4 s u v).attribute_space = s.attribute_space := by
  unfold connS4
  split_ifs <;> rfl

theorem connS4_masks_other (s : SN) (u v i j k : ℕ)
    (h1 : ¬(i = v ∧ j = u)) (h2 : ¬(i = u ∧ j = v)) :
    (connS4 s u v).masks i j k = s.masks i j k := by
  unfold connS4
  by_cases hsym : s.symmetric = true <;> by_cases hvis : s.visibility = "visible" <;>
    simp only [hsym, hvis, if_true, if_false, Bool.false_eq_true] <;>
    split_ifs <;> first | rfl | tauto

theorem disc_s1_attr (s : SN) (u v : ℕ) :
    (disc_s1 s u v).attribute_space = s.attribute_space := by
  unfold disc_s1
  cases h : removeEdgeAdj s u v <;> rfl

theorem disc_s2_attr (s : SN) (u v : ℕ) :
    (disc_s2 s u v).attribute_space = s.attribute_space := by
  unfold disc_s2
  split_ifs
  · cases h : removeEdgeAdj (disc_s1 s u v) v u with
    | none => exact disc_s1_attr s u v
    | some adj3 => exact disc_s1_attr s u v
  · exact disc_s1_attr s u v

theorem colTotal_pos_of_inv (s : SN) (hI : SNInv s) (u : ℕ) (hu : u < s.n) :
    0 < colTotal s u := by
  have h1 : s.weights u u ≤ colTotal s u :=
    Finset.single_le_sum (f := fun x => s.weights x u)
      (fun x hx => hI.nneg x u (Finset.mem_range.mp hx) hu) (Finset.mem_range.mpr hu)
  rw [hI.diag u hu] at h1
  linarith

/-! ## The claims -/

/-- C10: the update phase `update_attributes` mutates only `attribute_space`:
the node count, the edge set, the raw and normalized weight matrices, the mask
tensor, the resistance vector and the archetype assignment are all unchanged;
in particular a flipped opinion coordinate is not propagated to any mask
entry. -/
theorem C10_update_frame (s : SN) (draws : ℕ → ℚ) :
    (update_attributes s draws).n = s.n ∧
    (update_attributes s draws).adj = s.adj ∧
    (update_attributes s draws).weights = s.weights ∧
    (update_attributes s draws).normalized = s.normalized ∧
    (update_attributes s draws).masks = s.masks ∧
    (update_attributes s draws).resistance = s.resistance ∧
    (update_attributes s draws).types = s.types :=
  ⟨rfl, rfl, rfl, rfl, rfl, rfl, rfl⟩

/-- C4: `reveal u v k` does not write the true attribute value: on the
initialized 2-node network, node 0's opinion is `-1`, yet `reveal 0 1 0`
sets `M[1][0][0]` to the constant `1`, which differs from the attribute. -/
theorem C4_reveal_writes_constant :
    sTwo.attribute_space 0 0 = -1 ∧
    (okState (reveal sTwo 0 1 0) sTwo).masks 1 0 0 = 1 ∧
    (okState (reveal sTwo 0 1 0) sTwo).masks 1 0 0 ≠ sTwo.attribute_space 0 0 := by
  refine ⟨?_, ?_, ?_⟩
  · with_unfolding_all rfl
  · with_unfolding_all rfl
  · with_unfolding_all decide

/-- C5: an unknown topology tag is fatal to construction: `_build`'s error
branch calls the nonexistent attribute `self.log`, so construction raises an
uncaught `AttributeError` instead of absorbing the error and producing an
edgeless graph. -/
theorem C5_unknown_topology_fatal (s : SN) (h : s.topology ∉ TOPOLOGIES) :
    build s =
      Except.error "AttributeError: 'SocialNetwork' object has no attribute 'log'" := by
  unfold build
  rw [if_neg h]

/-- Witness for the C5 theorem at the concrete unknown tag `"ring"`. -/
theorem C5_unknown_topology_fatal_witness :
    build { props2 with topology := "ring" } =
      Except.error "AttributeError: 'SocialNetwork' object has no attribute 'log'" :=
  C5_unknown_topology_fatal { props2 with topology := "ring" } (by with_unfolding_all decide)

/-- C2 counterexample: on the initialized 2-node network with unfriend
probability `1`, the spec predicts that `disconnect 0 1` always performs the
disconnection; the code's gate `if rnd.random() < unfriend: return` fires on
the draw `0`, so the call is a no-op and the edge survives. -/
theorem C2_disconnect_gate_counterexample :
    sTwo.unfriend = 1 ∧ disconnect sTwo 0 1 0 = Except.ok sTwo ∧
    sTwo.adj 0 1 = true := by
  refine ⟨?_, ?_, ?_⟩
  · with_unfolding_all rfl
  · with_unfolding_all rfl
  · with_unfolding_all rfl

/-- C2 amended: the gate direction is inverted relative to the spec — a call
`disconnect u v` with draw `r` is a no-op iff `r < unfriend` (so the no-op
probability is the unfriend probability, not its complement); when the gate
does not fire and both endpoints are in range, the disconnection is performed:
the edge is cleared, both raw weight entries are zeroed, and when the edge was
present both mask directions are zeroed across all coordinates; an absent edge
is tolerated silently (the call still succeeds). -/
theorem C2_disconnect_gate_amended (s : SN) (u v : ℕ) (r : ℚ)
    (hu : u < s.n) (hv : v < s.n) :
    (r < s.unfriend → disconnect s u v r = Except.ok s) ∧
    (¬ r < s.unfriend →
      disconnect s u v r = Except.ok (disconnect_body s u v) ∧
      (disconnect_body s u v).adj u v = false ∧
      (disconnect_body s u v).weights u v = 0 ∧
      (disconnect_body s u v).weights v u = 0 ∧
      (s.adj u v = true → ∀ k, k < s.dimensions →
        (disconnect_body s u v).masks v u k = 0 ∧
        (disconnect_body s u v).masks u v k = 0)) := by
  constructor
  · intro hr
    unfold disconnect
    rw [if_pos hr]
  · intro hr
    refine ⟨?_, disc_adj_cleared s u v, (disconnect_body_weights_uv s u v).1,
      (disconnect_body_weights_uv s u v).2, ?_⟩
    · unfold disconnect
      rw [if_neg hr, if_pos ⟨hu, hv⟩]
    · intro he k hk
      have e2 : (disconnect_body s u v).masks = (disc_s1 s u v).masks :=
        disc_s2_masks s u v
      rw [e2]
      exact disc_s1_masks_zero s u v he k hk

/-- Witness for the C2 amended theorem: on the 2-node network with unfriend
probability `0` the draw `0` reaches the body and the edge `0-1` is removed;
with unfriend probability `1` the same draw makes the call a no-op. -/
theorem C2_disconnect_gate_amended_witness :
    disconnect sTwoU 0 1 0 = Except.ok (disconnect_body sTwoU 0 1) ∧
    (disconnect_body sTwoU 0 1).adj 0 1 = false ∧
    disconnect sTwo 0 1 0 = Except.ok sTwo := by
  refine ⟨?_, ?_, ?_⟩
  · exact ((C2_disconnect_gate_amended sTwoU 0 1 0 (by with_unfolding_all decide)
      (by with_unfolding_all decide)).2 (by with_unfolding_all decide)).1
  · exact ((C2_disconnect_gate_amended sTwoU 0 1 0 (by with_unfolding_all decide)
      (by with_unfolding_all decide)).2 (by with_unfolding_all decide)).2.1
  · exact (C2_disconnect_gate_amended sTwo 0 1 0 (by with_unfolding_all decide)
      (by with_unfolding_all decide)).1 (by with_unfolding_all decide)

/-- C6 counterexample: with an endpoint out of range the four operations are
not silent no-ops — each raises an uncaught `IndexError` (the disconnect gate
must not fire for the body to be reached). -/
theorem C6_out_of_range_counterexample :
    connect sTwo 0 2 = Except.error "IndexError" ∧
    reveal sTwo 2 0 0 = Except.error "IndexError" ∧
    hide sTwo 2 0 0 = Except.error "IndexError" ∧
    disconnect sTwoU 0 2 0 = Except.error "IndexError" := by
    refine ⟨?_, ?_, ?_, ?_⟩ <;> with_unfolding_all rfl

/-- C6 amended: with an endpoint out of range, `connect` (on distinct
endpoints), `reveal` and `hide` raise an uncaught `IndexError` rather than
silently doing nothing; `disconnect` raises the same `IndexError` whenever its
probability gate does not fire, and is a state-preserving no-op when it does. -/
theorem C6_out_of_range_amended (s : SN) (u v k : ℕ) (hb : ¬(u < s.n ∧ v < s.n)) :
    (u ≠ v → connect s u v = Except.error "IndexError") ∧
    reveal s u v k = Except.error "IndexError" ∧
    hide s u v k = Except.error "IndexError" ∧
    (∀ r, ¬ r < s.unfriend → disconnect s u v r = Except.error "IndexError") ∧
    (∀ r, r < s.unfriend → disconnect s u v r = Except.ok s) := by
  refine ⟨?_, ?_, ?_, ?_, ?_⟩
  · intro huv
    unfold connect
    rw [if_neg huv, if_neg hb]
  · unfold reveal
    rw [if_neg (fun hc => hb ⟨hc.2.1, hc.1⟩)]
  · unfold hide
    rw [if_neg (fun hc => hb ⟨hc.2.1, hc.1⟩)]
  · intro r hr
    unfold disconnect
    rw [if_neg hr, if_neg hb]
  · intro r hr
    unfold disconnect
    rw [if_pos hr]

/-- Witness for the C6 amended theorem at the concrete out-of-range index `2`
on the 2-node network. -/
theorem C6_out_of_range_amended_witness :
    reveal sTwo 2 0 0 = Except.error "IndexError" ∧
    connect sTwo 0 2 = Except.error "IndexError" :=
  ⟨(C6_out_of_range_amended sTwo 2 0 0 (by with_unfolding_all decide)).2.1,
   (C6_out_of_range_amended sTwo 0 2 0 (by with_unfolding_all decide)).1
     (by with_unfolding_all decide)⟩

/-- C1 counterexample: the self-perception invariant is established by
`initialize_masks` but not preserved: the update phase flips the single `DA`
node's opinion to `-1` while its self-mask stays `1`, and `hide 0 0 0` zeroes
the self-mask while the attribute stays `1`. -/
theorem C1_self_perception_counterexample :
    sOneM.masks 0 0 0 = sOneM.attribute_space 0 0 ∧
    sOneMU.masks 0 0 0 = 1 ∧ sOneMU.attribute_space 0 0 = -1 ∧
    (okState (hide sOneM 0 0 0) sOneM).masks 0 0 0 = 0 ∧
    (okState (hide sOneM 0 0 0) sOneM).attribute_space 0 0 = 1 := by
  refine ⟨?_, ?_, ?_, ?_, ?_⟩ <;> with_unfolding_all decide

/-- C1 amended: for `i < n`, `k < dimensions`, the self-perception equality
`M[i][i][k] = attribute[i][k]` holds right after `initialize_masks` provided
the visibility mode is not `random` or `i` is not its own neighbor; and every
`reveal`/`hide`/`connect`/`disconnect` call with distinct endpoints leaves
both the self-mask entry and the attribute matrix unchanged (so it preserves
the equality).  The update phase and `hide`/`reveal` at `u == v` do not
preserve it. -/
theorem C1_self_perception_amended (s : SN) (coins : ℕ → ℕ → ℕ → Bool)
    (i k u v c : ℕ) (hi : i < s.n) (hk : k < s.dimensions)
    (hself : s.visibility ≠ "random" ∨ i ∉ get_neighbors s i) (huv : u ≠ v) :
    (initialize_masks s coins).masks i i k = s.attribute_space i k ∧
    (∀ t, reveal s u v c = Except.ok t →
      t.masks i i k = s.masks i i k ∧ t.attribute_space = s.attribute_space) ∧
    (∀ t, hide s u v c = Except.ok t →
      t.masks i i k = s.masks i i k ∧ t.attribute_space = s.attribute_space) ∧
    (∀ t, connect s u v = Except.ok t →
      t.masks i i k = s.masks i i k ∧ t.attribute_space = s.attribute_space) ∧
    (∀ t r, disconnect s u v r = Except.ok t →
      t.masks i i k = s.masks i i k ∧ t.attribute_space = s.attribute_space) := by
  have h1 : ¬(i = v ∧ i = u) := fun hc => huv (hc.2.symm.trans hc.1)
  have h2 : ¬(i = u ∧ i = v) := fun hc => huv (hc.1.symm.trans hc.2)
  refine ⟨?_, ?_, ?_, ?_, ?_⟩
  · show (if i < s.n ∧ i < s.n ∧ k < s.dimensions then _ else 0) = s.attribute_space i k
    rw [if_pos ⟨hi, hi, hk⟩]
    by_cases hm : i ∈ get_neighbors s i
    · by_cases hvv : s.visibility = "visible"
      · rw [if_pos ⟨hm, hvv⟩]
      · have hvr : s.visibility ≠ "random" := hself.resolve_right (fun hn => hn hm)
        rw [if_neg (fun hc : i ∈ get_neighbors s i ∧ s.visibility = "visible" => hvv hc.2),
          if_neg (fun hc : i ∈ get_neighbors s i ∧ s.visibility = "random" => hvr hc.2),
          if_pos rfl]
    · rw [if_neg (fun hc : i ∈ get_neighbors s i ∧ s.visibility = "visible" => hm hc.1),
        if_neg (fun hc : i ∈ get_neighbors s i ∧ s.visibility = "random" => hm hc.1),
        if_pos rfl]
  · intro t ht
    unfold reveal at ht
    split_ifs at ht with hb
    injection ht with ht2
    subst ht2
    refine ⟨?_, rfl⟩
    show (if i = v ∧ i = u ∧ k = c then 1 else s.masks i i k) = s.masks i i k
    rw [if_neg (fun hc => h1 ⟨hc.1, hc.2.1⟩)]
  · intro t ht
    unfold hide at ht
    split_ifs at ht with hb
    injection ht with ht2
    subst ht2
    refine ⟨?_, rfl⟩
    show (if i = v ∧ i = u ∧ k = c then 0 else s.masks i i k) = s.masks i i k
    rw [if_neg (fun hc => h1 ⟨hc.1, hc.2.1⟩)]
  · intro t ht
    unfold connect at ht
    rw [if_neg huv] at ht
    by_cases hb : u < s.n ∧ v < s.n
    · rw [if_pos hb] at ht
      by_cases hvr : s.visibility = "random"
      · rw [if_pos hvr] at ht
        exact Except.noConfusion ht
      · rw [if_neg hvr] at ht
        injection ht with ht2
        subst ht2
        constructor
        · rw [connect_body_eq, uwc_masks, uwc_masks]
          exact connS4_masks_other s u v i i k h1 h2
        · rw [connect_body_eq, uwc_attr, uwc_attr]
          exact connS4_attr s u v
    · rw [if_neg hb] at ht
      exact Except.noConfusion ht
  · intro t r ht
    unfold disconnect at ht
    by_cases hr : r < s.unfriend
    · rw [if_pos hr] at ht
      injection ht with ht2
      subst ht2
      exact ⟨rfl, rfl⟩
    · rw [if_neg hr] at ht
      by_cases hb : u < s.n ∧ v < s.n
      · rw [if_pos hb] at ht
        injection ht with ht2
        subst ht2
        refine ⟨disconnect_body_masks_other s u v i i k h1 h2, ?_⟩
        show (discS3 s u v).attribute_space = s.attribute_space
        exact disc_s2_attr s u v
      · rw [if_neg hb] at ht
        exact Except.noConfusion ht

/-- Witness for the C1 amended theorem: on the 2-node network the self-mask of
node 0 equals its opinion right after `initialize_masks`. -/
theorem C1_self_perception_amended_witness :
    (initialize_masks sTwoU (fun _ _ _ => false)).masks 0 0 0 =
      sTwoU.attribute_space 0 0 :=
  (C1_self_perception_amended sTwoU (fun _ _ _ => false) 0 0 0 1 0
    (by with_unfolding_all decide) (by with_unfolding_all decide)
    (Or.inl (by with_unfolding_all decide)) (by decide)).1

/-- The 2-node complete network with unfriend probability `0` is a reachable
state of the weight model. -/
theorem reachable_sTwoU : Reachable sTwoU := by
  show Reachable (initialize_edge_weights (generate_edges props2u "complete"))
  refine Reachable.start _ ?_ ?_ ?_ ?_
  · intro _
    with_unfolding_all rfl
  · intro _ a b ha hb
    have hn : (generate_edges props2u "complete").n = 2 := rfl
    rw [hn] at ha hb
    interval_cases a <;> interval_cases b <;> with_unfolding_all rfl
  · intro a ha
    have hn : (generate_edges props2u "complete").n = 2 := rfl
    rw [hn] at ha
    interval_cases a <;> with_unfolding_all rfl
  · have hw : (generate_edges props2u "complete").weight = 1 := by with_unfolding_all rfl
    rw [hw]
    norm_num

/-- C3 counterexample: the reachable call `disconnect 0 0` (gate not fired,
endpoints in range) zeroes the self-weight `W[0][0]` and then renormalizes
column 0 of the 2-node network against the diminished total, leaving the
column sum of the normalized matrix at `2`, not `1`. -/
theorem C3_normalization_counterexample :
    disconnect sTwoU 0 0 0 = Except.ok sTwoUD ∧ colSumN sTwoUD 0 = 2 := by
  constructor
  · with_unfolding_all rfl
  · with_unfolding_all decide

/-- C3 amended: the normalization invariant holds on every state reachable by
`initialize_edge_weights` followed by `connect` calls and `disconnect` calls
between distinct endpoints: every normalized column of an in-range node sums
exactly to `1` (so in particular within the spec's `1e-5` tolerance);
a `disconnect u u` call breaks it. -/
theorem C3_normalization_amended (s : SN) (u : ℕ) (h : Reachable s) (hu : u < s.n) :
    colSumN s u = 1 :=
  (reach_inv s h).norm u hu

/-- Witness for the C3 amended theorem on the freshly initialized 2-node
network. -/
theorem C3_normalization_amended_witness : colSumN sTwoU 0 = 1 :=
  C3_normalization_amended sTwoU 0 reachable_sTwoU (by with_unfolding_all decide)

/-- C7 counterexample: the reachable call `disconnect 0 0` on the isolated
single node zeroes the always-present self-weight `W[0][0]`, so the divisor
`total` of `update_weight_column 0` is `0` in the resulting state — the
self-weight does not guarantee `total > 0` across `u == v` disconnects. -/
theorem C7_total_positive_counterexample :
    disconnect sOne 0 0 0 = Except.ok sOneD ∧ colTotal sOneD 0 = 0 := by
  constructor
  · with_unfolding_all rfl
  · with_unfolding_all decide

/-- C7 amended: on every state reachable by `initialize_edge_weights` followed
by `connect` calls and `disconnect` calls between distinct endpoints, the
divisor `total = Σ_x W[x][u]` of `update_weight_column u` is strictly positive
for every in-range `u` (the self-weight `W[u][u] = 1` survives and all raw
weights are nonnegative), so the divisions never divide by zero; a
`disconnect u u` call voids the guarantee. -/
theorem C7_total_positive_amended (s : SN) (u : ℕ) (h : Reachable s) (hu : u < s.n) :
    0 < colTotal s u :=
  colTotal_pos_of_inv s (reach_inv s h) u hu

/-- Witness for the C7 amended theorem on the freshly initialized 2-node
network. -/
theorem C7_total_positive_amended_witness : 0 < colTotal sTwoU 1 :=
  C7_total_positive_amended sTwoU 1 reachable_sTwoU (by with_unfolding_all decide)

/-- C8: for a node `u` of any of the six defined archetypes,
`get_reward_for_neighbor u v` returns `some` value in the closed interval
`[0, 1]`; and when every coordinate of the perceived vector `M[u][v]` is zero
it returns exactly `some 0`. -/
theorem C8_reward_range (s : SN) (u v : ℕ)
    (ht : s.types u ∈ (["R", "E", "SC", "DA", "RWC", "SR"] : List String)) :
    (∃ r, get_reward_for_neighbor s u v = some r ∧ 0 ≤ r ∧ r ≤ 1) ∧
    ((∀ i, i < s.dimensions → s.masks u v i = 0) →
      get_reward_for_neighbor s u v = some 0) := by
  constructor
  · simp only [get_reward_for_neighbor]
    by_cases he :
        ((List.range s.dimensions).filter (fun i => decide (s.masks u v i ≠ 0))).isEmpty
    · rw [if_pos he]
      exact ⟨0, rfl, le_refl 0, by norm_num⟩
    · rw [if_neg he]
      set L := (List.range s.dimensions).filter (fun i => decide (s.masks u v i ≠ 0))
        with hL
      have hlen : 0 < L.length :=
        List.length_pos.mpr (fun hnil : L = [] => he (by rw [hnil]; rfl))
      have hmle :
          (L.filter (fun i => decide (s.attribute_space u i ≠ s.masks u v i))).length
            ≤ L.length := List.length_filter_le _ L
      have hlenQ : (0 : ℚ) < (L.length : ℚ) := by exact_mod_cast hlen
      have hd0 : 0 ≤
          ((L.filter (fun i => decide (s.attribute_space u i ≠ s.masks u v i))).length : ℚ)
            / (L.length : ℚ) := by positivity
      have hd1 :
          ((L.filter (fun i => decide (s.attribute_space u i ≠ s.masks u v i))).length : ℚ)
            / (L.length : ℚ) ≤ 1 := by
        rw [div_le_one hlenQ]
        exact_mod_cast hmle
      by_cases h1 : s.types u ∈ (["R", "DA"] : List String)
      · rw [if_pos h1]
        exact ⟨_, rfl, by linarith, by linarith⟩
      · rw [if_neg h1]
        by_cases h2 : s.types u ∈ (["E", "RWC"] : List String)
        · rw [if_pos h2]
          exact ⟨_, rfl, hd0, hd1⟩
        · rw [if_neg h2]
          by_cases h3 : s.types u ∈ (["SC", "SR"] : List String)
          · rw [if_pos h3]
            have habs :
                |((L.filter (fun i => decide (s.attribute_space u i ≠ s.masks u v i))).length : ℚ)
                  / (L.length : ℚ) - 1/2| ≤ 1/2 :=
              abs_le.mpr ⟨by linarith, by linarith⟩
            have habs0 : 0 ≤
                |((L.filter (fun i => decide (s.attribute_space u i ≠ s.masks u v i))).length : ℚ)
                  / (L.length : ℚ) - 1/2| := abs_nonneg _
            exact ⟨_, rfl, by linarith, by linarith⟩
          · exfalso
            simp only [List.mem_cons, List.not_mem_nil, or_false] at ht h1 h2 h3
            tauto
  · intro hz
    have hnil :
        (List.range s.dimensions).filter (fun i => decide (s.masks u v i ≠ 0)) = [] := by
      apply List.filter_eq_nil_iff.mpr
      intro a ha
      simp only [List.mem_range] at ha
      simp only [decide_eq_true_eq]
      exact fun hne => hne (hz a ha)
    simp only [get_reward_for_neighbor, hnil]
    rfl

/-- Witness for the C8 theorem: on the freshly initialized 2-node network the
masks are still all zero, so node 0 (archetype `R`) gets reward exactly `0`
from node 1. -/
theorem C8_reward_range_witness : get_reward_for_neighbor sTwoU 0 1 = some 0 :=
  (C8_reward_range sTwoU 0 1 (by with_unfolding_all decide)).2 (fun _ _ => rfl)

/-! ## The round-trip scenario (C9) -/

/-- The five node records `_save` writes for the constructed 5-cycle (with
every opinion coordinate nonzero, each mask row of a node's own and adjacent
rows encodes to the pattern `0b11 = 3`). -/
def cycleRecs : List NodeRecord :=
  [⟨0, [1, 4], [(0, 3), (1, 3), (4, 3)], [1, 1]⟩,
   ⟨1, [0, 2], [(0, 3), (1, 3), (2, 3)], [1, 1]⟩,
   ⟨2, [1, 3], [(1, 3), (2, 3), (3, 3)], [1, 1]⟩,
   ⟨3, [2, 4], [(2, 3), (3, 3), (4, 3)], [1, 1]⟩,
   ⟨4, [0, 3], [(0, 3), (3, 3), (4, 3)], [1, 1]⟩]

set_option maxRecDepth 40000 in
set_option maxHeartbeats 2000000 in
theorem cycle_weights_iewW (A : ℕ → ℕ → ℚ) (a b : ℕ) :
    (constructedCycle A).weights a b =
      iewW (generate_edges (cycleProps A) "cycle") 5 a b := by
  have h5 : (generate_edges (cycleProps A) "cycle").n = 5 := rfl
  have hnl : ∀ x, x < (generate_edges (cycleProps A) "cycle").n →
      (generate_edges (cycleProps A) "cycle").adj x x = false := by
    intro x hx
    rw [h5] at hx
    interval_cases x <;> with_unfolding_all rfl
  have hsym : (generate_edges (cycleProps A) "cycle").directed = false →
      ∀ x y, x < (generate_edges (cycleProps A) "cycle").n →
        y < (generate_edges (cycleProps A) "cycle").n →
        (generate_edges (cycleProps A) "cycle").adj x y =
          (generate_edges (cycleProps A) "cycle").adj y x := by
    intro _ x y hx hy
    rw [h5] at hx hy
    interval_cases x <;> interval_cases y <;> with_unfolding_all rfl
  have hw : (0 : ℚ) ≤ (generate_edges (cycleProps A) "cycle").weight := by
    rw [show (generate_edges (cycleProps A) "cycle").weight = 1 from by
      with_unfolding_all rfl]
    norm_num
  have hle : (5 : ℕ) ≤ (generate_edges (cycleProps A) "cycle").n := le_of_eq h5.symm
  exact (iew_fold_main (generate_edges (cycleProps A) "cycle") hnl hsym hw 5 hle).1 a b

set_option maxRecDepth 40000 in
set_option maxHeartbeats 8000000 in
theorem export_cycle_eq (A : ℕ → ℕ → ℚ)
    (hA : ∀ j k, j < 5 → k < 2 → A j k = 1 ∨ A j k = -1) :
    exportState (constructedCycle A) = cycleRecs := by
  have hne : ∀ j k, j < 5 → k < 2 → A j k ≠ 0 := by
    intro j k hj hk
    rcases hA j k hj hk with h | h <;> rw [h] <;> norm_num
  have h00 := hne 0 0 (by norm_num) (by norm_num)
  have h01 := hne 0 1 (by norm_num) (by norm_num)
  have h10 := hne 1 0 (by norm_num) (by norm_num)
  have h11 := hne 1 1 (by norm_num) (by norm_num)
  have h20 := hne 2 0 (by norm_num) (by norm_num)
  have h21 := hne 2 1 (by norm_num) (by norm_num)
  have h30 := hne 3 0 (by norm_num) (by norm_num)
  have h31 := hne 3 1 (by norm_num) (by norm_num)
  have h40 := hne 4 0 (by norm_num) (by norm_num)
  have h41 := hne 4 1 (by norm_num) (by norm_num)
  have hrow0 : maskRowMatrix (constructedCycle A) 0 =
      [[A 0 0, A 0 1], [A 1 0, A 1 1], [0, 0], [0, 0], [A 4 0, A 4 1]] := by
    with_unfolding_all rfl
  have hrow1 : maskRowMatrix (constructedCycle A) 1 =
      [[A 0 0, A 0 1], [A 1 0, A 1 1], [A 2 0, A 2 1], [0, 0], [0, 0]] := by
    with_unfolding_all rfl
  have hrow2 : maskRowMatrix (constructedCycle A) 2 =
      [[0, 0], [A 1 0, A 1 1], [A 2 0, A 2 1], [A 3 0, A 3 1], [0, 0]] := by
    with_unfolding_all rfl
  have hrow3 : maskRowMatrix (constructedCycle A) 3 =
      [[0, 0], [0, 0], [A 2 0, A 2 1], [A 3 0, A 3 1], [A 4 0, A 4 1]] := by
    with_unfolding_all rfl
  have hrow4 : maskRowMatrix (constructedCycle A) 4 =
      [[A 0 0, A 0 1], [0, 0], [0, 0], [A 3 0, A 3 1], [A 4 0, A 4 1]] := by
    with_unfolding_all rfl
  have henc0 : encode_mask (maskRowMatrix (constructedCycle A) 0) =
      [(0, 3), (1, 3), (4, 3)] := by
    rw [hrow0]
    simp [encode_mask, encode_mask_row, List.range_succ, h00, h01, h10, h11, h40, h41]
  have henc1 : encode_mask (maskRowMatrix (constructedCycle A) 1) =
      [(0, 3), (1, 3), (2, 3)] := by
    rw [hrow1]
    simp [encode_mask, encode_mask_row, List.range_succ, h00, h01, h10, h11, h20, h21]
  have henc2 : encode_mask (maskRowMatrix (constructedCycle A) 2) =
      [(1, 3), (2, 3), (3, 3)] := by
    rw [hrow2]
    simp [encode_mask, encode_mask_row, List.range_succ, h10, h11, h20, h21, h30, h31]
  have henc3 : encode_mask (maskRowMatrix (constructedCycle A) 3) =
      [(2, 3), (3, 3), (4, 3)] := by
    rw [hrow3]
    simp [encode_mask, encode_mask_row, List.range_succ, h20, h21, h30, h31, h40, h41]
  have henc4 : encode_mask (maskRowMatrix (constructedCycle A) 4) =
      [(0, 3), (3, 3), (4, 3)] := by
    rw [hrow4]
    simp [encode_mask, encode_mask_row, List.range_succ, h00, h01, h30, h31, h40, h41]
  have hnb0 : get_neighbors (constructedCycle A) 0 = [1, 4] := by with_unfolding_all rfl
  have hnb1 : get_neighbors (constructedCycle A) 1 = [0, 2] := by with_unfolding_all rfl
  have hnb2 : get_neighbors (constructedCycle A) 2 = [1, 3] := by with_unfolding_all rfl
  have hnb3 : get_neighbors (constructedCycle A) 3 = [2, 4] := by with_unfolding_all rfl
  have hnb4 : get_neighbors (constructedCycle A) 4 = [0, 3] := by with_unfolding_all rfl
  have hw01 : (constructedCycle A).weights 0 1 = 1 := by
    rw [cycle_weights_iewW]; with_unfolding_all rfl
  have hw04 : (constructedCycle A).weights 0 4 = 1 := by
    rw [cycle_weights_iewW]; with_unfolding_all rfl
  have hw10 : (constructedCycle A).weights 1 0 = 1 := by
    rw [cycle_weights_iewW]; with_unfolding_all rfl
  have hw12 : (constructedCycle A).weights 1 2 = 1 := by
    rw [cycle_weights_iewW]; with_unfolding_all rfl
  have hw21 : (constructedCycle A).weights 2 1 = 1 := by
    rw [cycle_weights_iewW]; with_unfolding_all rfl
  have hw23 : (constructedCycle A).weights 2 3 = 1 := by
    rw [cycle_weights_iewW]; with_unfolding_all rfl
  have hw32 : (constructedCycle A).weights 3 2 = 1 := by
    rw [cycle_weights_iewW]; with_unfolding_all rfl
  have hw34 : (constructedCycle A).weights 3 4 = 1 := by
    rw [cycle_weights_iewW]; with_unfolding_all rfl
  have hw40 : (constructedCycle A).weights 4 0 = 1 := by
    rw [cycle_weights_iewW]; with_unfolding_all rfl
  have hw43 : (constructedCycle A).weights 4 3 = 1 := by
    rw [cycle_weights_iewW]; with_unfolding_all rfl
  unfold exportState
  rw [show List.range (constructedCycle A).n = [0, 1, 2, 3, 4] from rfl]
  simp only [List.map_cons, List.map_nil]
  rw [hnb0, hnb1, hnb2, hnb3, hnb4]
  simp only [List.map_cons, List.map_nil]
  rw [henc0, henc1, henc2, henc3, henc4,
    hw01, hw04, hw10, hw12, hw21, hw23, hw32, hw34, hw40, hw43]
  rfl

set_option maxRecDepth 40000 in
set_option maxHeartbeats 12000000 in
/-- C9: round-trip of persistence for the constructed state with `n = 5`,
`k = 2`, topology `cycle`, fixed weight `1`, visibility `visible`: for every
opinion matrix with `±1` entries, exporting the full state (with the compact
`encode_mask` row encoding) and importing it back (with `decode_mask`)
reproduces the same edge set, exactly equal raw weights, and a mask tensor
equal entry by entry (same zero pattern and same nonzero values). -/
theorem C9_roundtrip (A : ℕ → ℕ → ℚ)
    (hA : ∀ j k, j < 5 → k < 2 → A j k = 1 ∨ A j k = -1) :
    (∀ a b, a < 5 → b < 5 →
      (importedCycle A).adj a b = (constructedCycle A).adj a b) ∧
    (∀ a b, a < 5 → b < 5 →
      (importedCycle A).weights a b = (constructedCycle A).weights a b) ∧
    (∀ a b k, a < 5 → b < 5 → k < 2 →
      (importedCycle A).masks a b k = (constructedCycle A).masks a b k) := by
  have hI : importedCycle A =
      importState { cycleProps A with directed := true, symmetric := true } cycleRecs := by
    unfold importedCycle
    rw [export_cycle_eq A hA]
  refine ⟨?_, ?_, ?_⟩
  · intro a b ha hb
    rw [hI]
    interval_cases a <;> interval_cases b <;> with_unfolding_all rfl
  · intro a b ha hb
    rw [hI, cycle_weights_iewW A a b]
    interval_cases a <;> interval_cases b <;> with_unfolding_all rfl
  · intro a b k ha hb hk
    rw [hI]
    interval_cases a <;> interval_cases b <;> interval_cases k <;> with_unfolding_all rfl

/-- Witness for the C9 theorem at the all-ones opinion matrix: the imported
and constructed mask entries agree on a perceived coordinate. -/
theorem C9_roundtrip_witness :
    (importedCycle (fun _ _ => 1)).masks 0 1 0 =
      (constructedCycle (fun _ _ => 1)).masks 0 1 0 ∧
    (importedCycle (fun _ _ => 1)).adj 0 1 = (constructedCycle (fun _ _ => 1)).adj 0 1 :=
  ⟨(C9_roundtrip (fun _ _ => 1) (fun _ _ _ _ => Or.inl rfl)).2.2 0 1 0
      (by norm_num) (by norm_num) (by norm_num),
   (C9_roundtrip (fun _ _ => 1) (fun _ _ _ _ => Or.inl rfl)).1 0 1
      (by norm_num) (by norm_num)⟩
